import Mathlib

/-!
Verification of the polymr market-making engine specification against a
shallow embedding of the source code.

Conventions of the embedding:
* Python floats are modelled as exact rationals (`ℚ`).
* Python `int(x)` (truncation towards zero) is `pyInt`.
* Python `round(x, 4)` (round half to even, at four decimal places) is `rnd4`.
* `datetime` values are rationals measured in minutes (for the risk manager)
  or seconds (for the order manager); `timedelta(minutes=m)` is `+ m`.
* Python dicts keyed by strings are association lists `List (String × α)`;
  dict assignment replaces the first binding of the key, `dict.pop` removes
  it and raising `KeyError` is modelled as `Except.error`.
* Calls into the external trading venue (order submission results, orderbook
  snapshots, websocket fill messages, recent trades, `random.random()` draws)
  are parameters/oracles of the operations; an exception raised by the venue
  client and caught by the code is the `none` response.
* Interpolated numeric values inside log/reason strings are abbreviated
  (the claims never depend on them).
-/

namespace Polymr

/-- Python `int(x)` applied to a float: truncation towards zero. -/
def pyInt (q : ℚ) : ℤ := if 0 ≤ q then ⌊q⌋ else ⌈q⌉

/-- Round half to even of a rational to an integer, as Python `round` does
(on the idealised exact value). -/
def rhe (q : ℚ) : ℤ :=
  if q - ⌊q⌋ < 1/2 then ⌊q⌋
  else if (1:ℚ)/2 < q - ⌊q⌋ then ⌊q⌋ + 1
  else if ⌊q⌋ % 2 = 0 then ⌊q⌋ else ⌊q⌋ + 1

/-- Python `round(x, 4)`. -/
def rnd4 (q : ℚ) : ℚ := (rhe (q * 10000) : ℚ) / 10000

theorem le_rhe (q : ℚ) : ⌊q⌋ ≤ rhe q := by
  unfold rhe; split_ifs <;> omega

theorem rhe_le (q : ℚ) : rhe q ≤ ⌊q⌋ + 1 := by
  unfold rhe; split_ifs <;> omega

theorem rhe_mono {q r : ℚ} (h : q ≤ r) : rhe q ≤ rhe r := by
  have hf : ⌊q⌋ ≤ ⌊r⌋ := Int.floor_le_floor h
  rcases eq_or_lt_of_le hf with heq | hlt
  · have hfr : (⌊q⌋ : ℚ) = (⌊r⌋ : ℚ) := by exact_mod_cast heq
    unfold rhe
    rw [← heq]
    have hfrac : q - ⌊q⌋ ≤ r - ⌊q⌋ := by linarith
    have hfrac' : r - (⌊r⌋:ℚ) = r - (⌊q⌋:ℚ) := by rw [hfr]
    split_ifs with h1 h2 h3 h4 h5 h6 h7 h8 h9 h10 h11 <;>
      first
        | omega
        | (exfalso; rw [hfrac'] at *; linarith)
  · calc rhe q ≤ ⌊q⌋ + 1 := rhe_le q
      _ ≤ ⌊r⌋ := by omega
      _ ≤ rhe r := le_rhe r

theorem rnd4_mono {q r : ℚ} (h : q ≤ r) : rnd4 q ≤ rnd4 r := by
  unfold rnd4
  have : rhe (q * 10000) ≤ rhe (r * 10000) := rhe_mono (by nlinarith)
  have : ((rhe (q * 10000) : ℚ)) ≤ ((rhe (r * 10000) : ℚ)) := by exact_mod_cast this
  linarith

/-! ### PricingModel — `src/polymr/pricing.py` (pure functions) -/

/-- Module constant `TARGET_REBATE_BPS`. -/
def TARGET_REBATE_BPS : ℤ := 31

/-- Module constant `MIN_REBATE_SPREAD_BPS`. -/
def MIN_REBATE_SPREAD_BPS : ℤ := 10

/-- `PricingConfig` dataclass. -/
structure PricingConfig where
  min_spread_bps : ℤ := 15
  max_spread_bps : ℤ := 80
  vol_multiplier : ℚ := 2
  base_positioning : ℚ := 1/2
  skew_sensitivity : ℚ := 3/10
  buy_stop_threshold : ℚ := 3/20
  sell_stop_threshold : ℚ := -(3/20)
  min_rebate_spread_bps : ℤ := MIN_REBATE_SPREAD_BPS
deriving DecidableEq, Repr

/-- `calculate_optimal_spread(market_spread_bps, volatility_bps, fill_rate, config)`. -/
def calculate_optimal_spread (market_spread_bps volatility_bps fill_rate : ℚ)
    (config : PricingConfig) : ℤ :=
  let vol_spread := pyInt (volatility_bps * config.vol_multiplier)
  let fill_adjustment : ℤ :=
    if fill_rate > 2/5 then 15
    else if fill_rate > 3/10 then 10
    else if fill_rate > 1/5 then 5
    else if fill_rate < 1/10 then -3
    else 0
  let min_economic_spread := pyInt ((TARGET_REBATE_BPS : ℚ) * (1/2))
  let optimal_spread := max vol_spread min_economic_spread + fill_adjustment
  if market_spread_bps < (config.min_rebate_spread_bps : ℚ) then 0
  else max config.min_spread_bps (min optimal_spread config.max_spread_bps)

/-- `calculate_positioning_factor(skew, spread_bps, config)`. -/
def calculate_positioning_factor (skew : ℚ) (spread_bps : ℤ)
    (config : PricingConfig) : ℚ :=
  let base_pos := config.base_positioning
  let skew_adjustment := |skew| * config.skew_sensitivity
  let spread_factor := min 1 (((spread_bps : ℚ) - (config.min_spread_bps : ℚ)) / 80)
  let positioning := base_pos + skew_adjustment - spread_factor * (1/10)
  max (1/5) (min (4/5) positioning)

/-- `should_quote_side(side, skew, config)` (after the `.upper()` call). -/
def should_quote_side (side : String) (skew : ℚ) (config : PricingConfig) : Bool :=
  if side = "BUY" then
    if skew > config.buy_stop_threshold then false else true
  else if side = "SELL" then
    if skew < config.sell_stop_threshold then false else true
  else true

/-- `calculate_quote_prices(mid, spread_bps, positioning_factor, skew)`. -/
def calculate_quote_prices (mid : ℚ) (spread_bps : ℤ)
    (positioning_factor : ℚ) (skew : ℚ := 0) : Option ℚ × Option ℚ :=
  if spread_bps ≤ 0 ∨ mid ≤ 0 ∨ mid ≥ 1 then (none, none)
  else
    let half_spread := ((spread_bps : ℚ) * positioning_factor) / 10000
    let skew_adjustment := skew * (5/1000)
    let buy_price := rnd4 (mid - half_spread + skew_adjustment)
    let sell_price := rnd4 (mid + half_spread - skew_adjustment)
    let buy_price := if buy_price ≤ 0 ∨ buy_price ≥ 1 then rnd4 (mid * (99/100)) else buy_price
    let sell_price := if sell_price ≤ 0 ∨ sell_price ≥ 1 then rnd4 (mid * (101/100)) else sell_price
    if buy_price ≤ 0 ∨ buy_price ≥ 1 ∨ sell_price ≤ 0 ∨ sell_price ≥ 1 then (none, none)
    else (some buy_price, some sell_price)

/-! ### QuoteEngine sizing — `src/polymr/quoting/quote_engine.py` -/

/-- The fields of the `QuotingConfig` pydantic model used by the quote engine. -/
structure QuotingConfig where
  default_size : ℚ := 10
  min_size : ℚ := 1
  max_size : ℚ := 100
  min_spread_bps : ℤ := 10
  max_spread_bps : ℤ := 50
deriving DecidableEq, Repr

/-- The fields of the `InventoryConfig` pydantic model. -/
structure InventoryConfig where
  max_exposure_usd : ℚ := 1000
  min_exposure_usd : ℚ := -1000
  target_net_exposure : ℚ := 0
  max_position_size_usd : ℚ := 500
  max_single_order_usd : ℚ := 100
  max_inventory_skew : ℚ := 3/10
  skew_rebalance_factor : ℚ := 1/2
deriving DecidableEq, Repr

namespace QuoteEngine

/-- `QuoteEngine._calculate_size(self, inventory, total_exposure_usd, side)`.
The engine's `self.quoting` and `self.inventory` configs are passed explicitly.
Note the source's `elif exposure_ratio > 0.8` branch, kept verbatim here,
is unreachable: any ratio above `0.8` already satisfies the first test. -/
def calculate_size (quoting : QuotingConfig) (inventory_cfg : InventoryConfig)
    (inventory : List (String × ℚ)) (total_exposure_usd : ℚ) (side : String) : ℚ :=
  let base_size := quoting.default_size
  let size := min base_size quoting.max_size
  let size :=
    if |total_exposure_usd| / inventory_cfg.max_exposure_usd > 1/2 then size * (1/2)
    else if |total_exposure_usd| / inventory_cfg.max_exposure_usd > 4/5 then size * (1/4)
    else size
  max size quoting.min_size

end QuoteEngine

/-! ### RiskManager — `src/polymr/risk/risk_manager.py`
Times are rationals in minutes; `datetime.utcnow()` is the `now` parameter of
each operation; `timedelta(minutes=m)` is `+ m`. -/

/-- `RiskConfig` fields read by `RiskManager`. -/
structure RiskConfig where
  stop_loss_pct : ℚ := 10
  stop_loss_cooldown_minutes : ℚ := 30
deriving DecidableEq, Repr

/-- `RiskLevel` enum. -/
inductive RiskLevel where
  | LOW | MEDIUM | HIGH | CRITICAL
deriving DecidableEq, Repr

/-- `RiskCheckResult` dataclass (the optional `details` payload is omitted;
no claim depends on it). -/
structure RiskCheckResult where
  allowed : Bool
  level : RiskLevel
  reason : String
deriving DecidableEq, Repr

/-- `RiskState` dataclass. -/
structure RiskState where
  total_exposure_usd : ℚ := 0
  daily_pnl : ℚ := 0
  peak_equity : ℚ := 0
  current_equity : ℚ := 0
  consecutive_losses : ℕ := 0
  api_failure_count : ℕ := 0
  last_api_failure : Option ℚ := none
  trading_paused : Bool := false
  pause_reason : String := ""
  pause_until : Option ℚ := none
deriving DecidableEq, Repr

/-- The `RiskManager` object: its two configs and mutable state. -/
structure RiskManager where
  risk : RiskConfig
  inventory : InventoryConfig
  state : RiskState
  circuit_breakers_triggered : Bool := false
deriving DecidableEq, Repr

namespace RiskManager

/-- `RiskManager.__init__`. -/
def init (risk_config : RiskConfig) (inventory_config : InventoryConfig)
    (initial_equity : ℚ) : RiskManager :=
  { risk := risk_config, inventory := inventory_config,
    state := { current_equity := initial_equity, peak_equity := initial_equity } }

/-- `RiskManager._check_exposure`. -/
def check_exposure (rm : RiskManager) (side : String) (size current_exposure : ℚ)
    (_inventory : List ℚ) : RiskCheckResult :=
  let new_exposure := if side = "BUY" then current_exposure + size else current_exposure - size
  if new_exposure > rm.inventory.max_exposure_usd then
    ⟨false, .HIGH, "Would exceed max exposure"⟩
  else if new_exposure < rm.inventory.min_exposure_usd then
    ⟨false, .HIGH, "Would exceed min exposure"⟩
  else ⟨true, .LOW, "Exposure within limits"⟩

/-- `RiskManager._check_position_size`. -/
def check_position_size (rm : RiskManager) (size : ℚ) : RiskCheckResult :=
  if size > rm.inventory.max_single_order_usd then
    ⟨false, .MEDIUM, "Order size exceeds max single order"⟩
  else if size > rm.inventory.max_position_size_usd then
    ⟨false, .MEDIUM, "Order size exceeds max position size"⟩
  else ⟨true, .LOW, "Position size within limits"⟩

/-- `RiskManager._check_inventory_skew`; the dict's values are what the code
sums over, so the inventory is its list of values. -/
def check_inventory_skew (rm : RiskManager) (inventory : List ℚ) : RiskCheckResult :=
  if inventory = [] then ⟨true, .LOW, "No inventory"⟩
  else
    let total := (inventory.map (fun v => |v|)).sum
    if total = 0 then ⟨true, .LOW, "No inventory"⟩
    else
      let net := inventory.sum
      let skew := if total > 0 then net / total else 0
      if |skew| > rm.inventory.max_inventory_skew then
        ⟨false, .MEDIUM, "Inventory skew exceeds max"⟩
      else ⟨true, .LOW, "Inventory balanced"⟩

/-- `RiskManager.check_pre_trade` (pure: it never mutates state). -/
def check_pre_trade (rm : RiskManager) (_token_id : String) (side : String)
    (size price current_exposure : ℚ) (inventory : List ℚ) : RiskCheckResult :=
  if rm.state.trading_paused then
    ⟨false, .CRITICAL, "Trading paused: " ++ rm.state.pause_reason⟩
  else
    let exposure_result := check_exposure rm side size current_exposure inventory
    if exposure_result.allowed = false then exposure_result
    else
      let position_result := check_position_size rm size
      if position_result.allowed = false then position_result
      else
        let skew_result := check_inventory_skew rm inventory
        if skew_result.allowed = false then skew_result
        else ⟨true, .LOW, "All checks passed"⟩

/-- `RiskManager._trigger_circuit_breaker`. -/
def trigger_circuit_breaker (rm : RiskManager) (reason : String)
    (pause_until : ℚ) : RiskManager :=
  { rm with
    state := { rm.state with
      trading_paused := true, pause_reason := reason, pause_until := some pause_until },
    circuit_breakers_triggered := true }

/-- `RiskManager.check_daily_loss_limit`. -/
def check_daily_loss_limit (now daily_pnl : ℚ) (rm : RiskManager) :
    RiskCheckResult × RiskManager :=
  let loss_pct := if rm.state.peak_equity > 0 then -daily_pnl / rm.state.peak_equity else 0
  if loss_pct ≥ rm.risk.stop_loss_pct / 100 then
    (⟨false, .CRITICAL, "Daily loss exceeds limit"⟩,
     trigger_circuit_breaker rm "Daily loss limit reached"
       (now + rm.risk.stop_loss_cooldown_minutes))
  else (⟨true, .LOW, "Daily loss within limits"⟩, rm)

/-- `RiskManager.check_consecutive_losses`. -/
def check_consecutive_losses (now : ℚ) (is_loss : Bool) (rm : RiskManager) :
    RiskCheckResult × RiskManager :=
  let rm1 := { rm with state := { rm.state with
    consecutive_losses := if is_loss then rm.state.consecutive_losses + 1 else 0 } }
  if rm1.state.consecutive_losses ≥ 3 then
    (⟨false, .HIGH, "Consecutive losses exceed limit"⟩,
     trigger_circuit_breaker rm1
       (toString rm1.state.consecutive_losses ++ " consecutive losses") (now + 30))
  else (⟨true, .LOW, "Consecutive losses within limits"⟩, rm1)

/-- `RiskManager.record_api_failure`. -/
def record_api_failure (now : ℚ) (rm : RiskManager) : RiskManager :=
  let rm1 := { rm with state := { rm.state with
    api_failure_count := rm.state.api_failure_count + 1, last_api_failure := some now } }
  if rm1.state.api_failure_count ≥ 5 then
    trigger_circuit_breaker rm1
      (toString rm1.state.api_failure_count ++ " API failures") (now + 5)
  else rm1

/-- `RiskManager.record_api_success`. -/
def record_api_success (rm : RiskManager) : RiskManager :=
  { rm with state := { rm.state with api_failure_count := 0 } }

/-- `RiskManager.update_equity`. -/
def update_equity (new_equity pnl : ℚ) (rm : RiskManager) : RiskManager :=
  let rm1 := { rm with state := { rm.state with
    current_equity := new_equity, daily_pnl := pnl } }
  if new_equity > rm1.state.peak_equity then
    { rm1 with state := { rm1.state with peak_equity := new_equity } }
  else rm1

/-- `RiskManager.check_circuit_breakers` (both `datetime.utcnow()` reads inside
the method are the single `now` parameter). -/
def check_circuit_breakers (now : ℚ) (rm : RiskManager) :
    List RiskCheckResult × RiskManager :=
  if rm.state.trading_paused then
    match rm.state.pause_until with
    | some t =>
      if now ≥ t then
        ([], { rm with
          state := { rm.state with
            trading_paused := false, pause_reason := "", pause_until := none },
          circuit_breakers_triggered := false })
      else ([⟨false, .CRITICAL, "Trading paused: " ++ rm.state.pause_reason⟩], rm)
    | none => ([], rm)
  else ([], rm)

end RiskManager

/-- The public mutating operations of `RiskManager`, with the external inputs
(`datetime.utcnow()` readings, P&L figures, trade parameters) as data. -/
inductive RiskOp where
  | preTrade (token side : String) (size price exposure : ℚ) (inventory : List ℚ)
  | dailyLoss (now pnl : ℚ)
  | consecutiveLosses (now : ℚ) (isLoss : Bool)
  | apiFailure (now : ℚ)
  | apiSuccess
  | updateEquity (equity pnl : ℚ)
  | circuitBreakers (now : ℚ)
deriving DecidableEq, Repr

/-- Whether an operation is `check_circuit_breakers`. -/
def RiskOp.isCircuitBreakers : RiskOp → Bool
  | .circuitBreakers _ => true
  | _ => false

/-- State transition of each `RiskManager` operation. -/
def runRiskOp : RiskOp → RiskManager → RiskManager
  | .preTrade _ _ _ _ _ _, rm => rm
  | .dailyLoss now pnl, rm => (RiskManager.check_daily_loss_limit now pnl rm).2
  | .consecutiveLosses now l, rm => (RiskManager.check_consecutive_losses now l rm).2
  | .apiFailure now, rm => RiskManager.record_api_failure now rm
  | .apiSuccess, rm => RiskManager.record_api_success rm
  | .updateEquity e p, rm => RiskManager.update_equity e p rm
  | .circuitBreakers now, rm => (RiskManager.check_circuit_breakers now rm).2

/-- States of a `RiskManager` reachable from `__init__` by its operations. -/
inductive RiskReachable (rc : RiskConfig) (ic : InventoryConfig) (e0 : ℚ) :
    RiskManager → Prop where
  | base : RiskReachable rc ic e0 (RiskManager.init rc ic e0)
  | step (op : RiskOp) {rm : RiskManager} :
      RiskReachable rc ic e0 rm → RiskReachable rc ic e0 (runRiskOp op rm)

/-! ### OrderManager — `src/run_bot.py`
Times are rationals in seconds (`time.time()` readings are parameters).
The `open` dict is an association list in insertion order; `defaultdict`
inventory is a total function with zero default. A `dict.pop` on a missing
key (`KeyError`) makes the whole call an `Except.error`, abstracting from
the partial mutations Python performs before raising. -/

namespace RB

/-- `OrderSide` enum. -/
inductive Side where
  | BUY | SELL
deriving DecidableEq, Repr

/-- `OrderStatus` enum. -/
inductive Status where
  | PENDING | OPEN | FILLED | CANCELLED | EXPIRED
deriving DecidableEq, Repr

/-- `Order` dataclass of `run_bot.py`. -/
structure Order where
  order_id : String
  market_id : String
  token_id : String
  side : Side
  price : ℚ
  size : ℚ
  status : Status
  created_at : ℚ
  expires_at : ℚ
  nonce : ℕ
  filled_qty : ℚ := 0
  filled_price : ℚ := 0
deriving DecidableEq, Repr

/-- `Market` dataclass (the two timestamp strings are omitted). -/
structure Market where
  condition_id : String
  question : String
  tokens : List String
  fee_bps : ℤ
  volume_24h : ℚ
deriving DecidableEq, Repr

/-- One level of an orderbook side (a `{"price": .., "size": ..}` dict). -/
structure Level where
  price : ℚ
  size : ℚ
deriving DecidableEq, Repr

/-- `OrderBook` dataclass. -/
structure OrderBook where
  bids : List Level
  asks : List Level
  midpoint : ℚ := 1/2
  spread_bps : ℚ := 0
deriving DecidableEq, Repr

/-- A websocket fill message: the dict keys `order_id`/`orderId`, `size`,
`price` that `check_fills` reads (a missing key is `none`). -/
structure WsFill where
  order_id : Option String
  orderId : Option String
  size : Option ℚ
  price : Option ℚ
deriving DecidableEq, Repr

/-- A trade record from `get_recent_trades`: keys `side`, `size`, `price`. -/
structure Trade where
  side : String
  size : Option ℚ
  price : Option ℚ
deriving DecidableEq, Repr

/-- One market's inventory entry `{"YES": .., "NO": ..}`. -/
structure Inv where
  yes : ℚ := 0
  no : ℚ := 0
deriving DecidableEq, Repr

/-- The fill dict appended to the list `check_fills` returns. -/
structure Fill where
  order_id : String
  side : Side
  filled_qty : ℚ
  filled_price : ℚ
  rebate : ℚ
deriving DecidableEq, Repr

/-- The mutable state of an `OrderManager` (counters included). -/
structure Mgr where
  rebate_rate : ℚ := 1/5
  openOrders : List (String × Order) := []
  filled : List Order := []
  cancelled : List Order := []
  inventory : String → Inv := fun _ => {}
  placed : ℕ := 0
  filled_count : ℕ := 0
  cancelled_count : ℕ := 0
  gas_spent : ℚ := 0
  ws_fills : List WsFill := []

/-- `OrderManager.__init__(client, rebate_rate)`. -/
def Mgr.init (rebate_rate : ℚ) : Mgr := { rebate_rate := rebate_rate }

/-- Dict lookup on the association list. -/
def findOrd : List (String × Order) → String → Option Order
  | [], _ => none
  | (k', o) :: t, k => if k' = k then some o else findOrd t k

/-- Dict key-membership test. -/
def hasKey (l : List (String × Order)) (k : String) : Bool := (findOrd l k).isSome

/-- Dict `pop`'s removal: drop the first binding of the key. -/
def removeKey : List (String × Order) → String → List (String × Order)
  | [], _ => []
  | (k', o) :: t, k => if k' = k then t else (k', o) :: removeKey t k

/-- Dict assignment `d[k] = o`: replace the first binding or append. -/
def insertKey : List (String × Order) → String → Order → List (String × Order)
  | [], k, o => [(k, o)]
  | (k', o') :: t, k, o => if k' = k then (k, o) :: t else (k', o') :: insertKey t k o

/-- Python `a or b` on two optional strings (`""` and `None` are falsy). -/
def pyOrStr : Option String → Option String → Option String
  | some s, b => if s = "" then b else some s
  | none, b => b

/-- Update `inventory[market]["YES" or "NO"] += qty` for a fill on `side`. -/
def bumpInv (inv : String → Inv) (market : String) (side : Side) (qty : ℚ) :
    String → Inv :=
  fun m =>
    if m = market then
      match side with
      | .BUY => { inv market with yes := (inv market).yes + qty }
      | .SELL => { inv market with no := (inv market).no + qty }
    else inv m

/-- `OrderManager._calc_rebate(qty, price, fee_bps)` with `self.rebate_rate`. -/
def calc_rebate (rebate_rate qty price : ℚ) (fee_bps : ℤ) : ℚ :=
  qty * price * (fee_bps : ℚ) / 10000 * rebate_rate

/-- `OrderManager._trade_matches(trade, order)`. -/
def trade_matches (trade : Trade) (order : Order) : Bool :=
  match order.side with
  | .BUY => trade.side = "SELL"
  | .SELL => trade.side = "BUY"

/-- `OrderManager.calc_fill_prob(order, book, volume, size_usd)`. -/
def calc_fill_prob (order : Order) (book : OrderBook) (volume size_usd : ℚ) : ℚ :=
  let depth_ahead : ℚ :=
    if book.bids ≠ [] ∧ book.asks ≠ [] then
      match order.side with
      | .BUY => ((book.asks.filter (fun a => a.price ≤ order.price)).map Level.size).sum
      | .SELL => ((book.bids.filter (fun b => b.price ≥ order.price)).map Level.size).sum
    else 0
  let queue_factor := max (1/20) (min (19/20) (order.size / (depth_ahead + order.size + 10)))
  let vol_factor := min 1 (volume / (size_usd * 100))
  let spread_factor : ℚ :=
    if book.spread_bps < 50 then 6/5 else if book.spread_bps > 200 then 4/5 else 1
  let prob := (3/100) * queue_factor * vol_factor * spread_factor
  max (1/1000) (min (1/5) prob)

/-- The venue client's reply to `submit_order`: `success` and the optional
`orderID` field. A raised exception is modelled as `none` at the call site. -/
structure SubmitResp where
  success : Bool
  orderID : Option String
deriving DecidableEq, Repr

/-- `OrderManager.submit_order`. External data as parameters: `now` for the
`time.time()` reads, `nonce` for `client.get_nonce()`, `sandboxMode` for the
`isinstance(..., SandboxTradingClient)` test, `gas_price` for
`client.get_gas_price()`, and `resp` for the client call (exception = `none`). -/
def submit_order (mkt : Market) (side : Side) (price size : ℚ) (expiry_secs : ℚ)
    (now : ℚ) (nonce : ℕ) (sandboxMode : Bool) (gas_price : ℚ)
    (resp : Option SubmitResp) (s : Mgr) : Option Order × Mgr :=
  let order : Order :=
    { order_id := "", market_id := mkt.condition_id,
      token_id := if side = .BUY then mkt.tokens.getD 0 "" else mkt.tokens.getD 1 "",
      side := side, price := price, size := size, status := .PENDING,
      created_at := now, expires_at := now + expiry_secs, nonce := nonce }
  match resp with
  | none => (none, s)
  | some r =>
    if r.success then
      let oid := r.orderID.getD ("sim_" ++ toString (pyInt (now * 1000)))
      let order := { order with order_id := oid, status := .OPEN }
      let s' := { s with
        openOrders := insertKey s.openOrders oid order,
        placed := s.placed + 1,
        gas_spent := if sandboxMode then s.gas_spent
                     else s.gas_spent + gas_price * (1/20) * (4/5) }
      (some order, s')
    else (none, s)

/-- `OrderManager.cancel_order`; `resp` is `client.cancel_order`'s reply
(`none` models a raised-and-caught exception). -/
def cancel_order (oid : String) (sandboxMode : Bool) (gas_price : ℚ)
    (resp : Option Bool) (s : Mgr) : Bool × Mgr :=
  match findOrd s.openOrders oid with
  | none => (false, s)
  | some o =>
    match resp with
    | some true =>
      let o := { o with status := .CANCELLED }
      (true, { s with
        openOrders := removeKey s.openOrders oid,
        cancelled := s.cancelled ++ [o],
        cancelled_count := s.cancelled_count + 1,
        gas_spent := if sandboxMode then s.gas_spent
                     else s.gas_spent + gas_price * (3/100) * (4/5) })
    | _ => (false, s)

/-- `OrderManager.cancel_stale(max_age)`: sweep the snapshot of open order
ids, cancelling those older than the threshold. `resps` gives the client's
reply per order id. -/
def cancel_stale_aux (maxAge now : ℚ) (sandboxMode : Bool) (gas_price : ℚ)
    (resps : String → Option Bool) : List String → ℕ × Mgr → ℕ × Mgr
  | [], acc => acc
  | oid :: rest, (count, s) =>
    match findOrd s.openOrders oid with
    | some o =>
      if now - o.created_at > maxAge then
        let (ok, s') := cancel_order oid sandboxMode gas_price (resps oid) s
        cancel_stale_aux maxAge now sandboxMode gas_price resps rest
          (if ok then count + 1 else count, s')
      else cancel_stale_aux maxAge now sandboxMode gas_price resps rest (count, s)
    | none => cancel_stale_aux maxAge now sandboxMode gas_price resps rest (count, s)

/-- `OrderManager.cancel_stale`. Only the id under process is ever removed, so
the live `self.open[oid]` read never raises; the impossible missing-key case
is a skip in the model. -/
def cancel_stale (maxAge now : ℚ) (sandboxMode : Bool) (gas_price : ℚ)
    (resps : String → Option Bool) (s : Mgr) : ℕ × Mgr :=
  cancel_stale_aux maxAge now sandboxMode gas_price resps (s.openOrders.map Prod.fst) (0, s)

/-- The external world a `check_fills` call observes: the wall clock, the
market argument, the client kind, orderbooks, the `random.random()` draw per
open order, and the recent-trades feed per token. -/
structure Env where
  now : ℚ
  market : Market
  sandboxMode : Bool
  book : String → OrderBook
  rand : String → ℚ
  trades : String → List Trade

/-- The inner websocket-fill loop of `check_fills`: scan the snapshot
`self._ws_fills[:]`, consuming every message whose order id is currently
open (not only ones for the outer loop's order). -/
def wsLoop (fee_bps : ℤ) : List WsFill → Mgr → List Fill → Bool → Mgr × List Fill × Bool
  | [], s, fills, processed => (s, fills, processed)
  | wf :: rest, s, fills, processed =>
    match pyOrStr wf.order_id wf.orderId with
    | some k =>
      if k = "" then wsLoop fee_bps rest s fills processed
      else
        match findOrd s.openOrders k with
        | some o =>
          let fq := wf.size.getD o.size
          let fp := wf.price.getD o.price
          let f : Fill := ⟨k, o.side, fq, fp, calc_rebate s.rebate_rate fq fp fee_bps⟩
          let o' := { o with filled_qty := fq, filled_price := fp, status := .FILLED }
          let s' := { s with
            openOrders := removeKey s.openOrders k,
            filled := s.filled ++ [o'],
            filled_count := s.filled_count + 1,
            inventory := bumpInv s.inventory o.market_id o.side o.size,
            ws_fills := s.ws_fills.erase wf }
          wsLoop fee_bps rest s' (fills ++ [f]) true
        | none => wsLoop fee_bps rest s fills processed
    | none => wsLoop fee_bps rest s fills processed

/-- One iteration of `check_fills`'s outer loop for a snapshot item
`(oid, order)`. Besides the new state and fills, it returns the orders whose
status was set to `EXPIRED` (in Python an in-place mutation of the shared
`Order` object just before it is dropped from every collection). -/
def processOne (env : Env) (item : String × Order) (s : Mgr) (fills : List Fill)
    (expired : List Order) : Except Unit (Mgr × List Fill × List Order) :=
  let (oid, order) := item
  if env.now > order.expires_at then
    if hasKey s.openOrders oid then
      .ok ({ s with openOrders := removeKey s.openOrders oid }, fills,
           expired ++ [{ order with status := .EXPIRED }])
    else .error ()
  else
    let book := env.book order.token_id
    if env.sandboxMode then
      let prob := calc_fill_prob order book env.market.volume_24h (order.size * order.price)
      if env.rand oid < prob then
        let f : Fill := ⟨oid, order.side, order.size, order.price,
          calc_rebate s.rebate_rate order.size order.price env.market.fee_bps⟩
        let o' := { order with
          filled_qty := order.size, filled_price := order.price, status := .FILLED }
        if hasKey s.openOrders oid then
          .ok ({ s with
            openOrders := removeKey s.openOrders oid,
            filled := s.filled ++ [o'],
            filled_count := s.filled_count + 1,
            inventory := bumpInv s.inventory order.market_id order.side order.size },
            fills ++ [f], expired)
        else .error ()
      else .ok (s, fills, expired)
    else
      match wsLoop env.market.fee_bps s.ws_fills s fills false with
      | (s', fills', processed) =>
        if processed then .ok (s', fills', expired)
        else
          match (env.trades order.token_id).find? (fun t => trade_matches t order) with
          | some t =>
            let fq := t.size.getD 0
            let fp := t.price.getD order.price
            let f : Fill := ⟨oid, order.side, fq, fp,
              calc_rebate s'.rebate_rate fq fp env.market.fee_bps⟩
            if hasKey s'.openOrders oid then
              .ok ({ s' with
                openOrders := removeKey s'.openOrders oid,
                filled := s'.filled ++ [order],
                filled_count := s'.filled_count + 1,
                inventory := bumpInv s'.inventory order.market_id order.side order.size },
                fills' ++ [f], expired)
            else .error ()
          | none => .ok (s', fills', expired)

/-- Fold of `processOne` over the snapshot `list(self.open.items())`. -/
def checkFillsAux (env : Env) : List (String × Order) → Mgr → List Fill →
    List Order → Except Unit (Mgr × List Fill × List Order)
  | [], s, fills, expired => .ok (s, fills, expired)
  | item :: rest, s, fills, expired =>
    match processOne env item s fills expired with
    | .ok (s', fills', expired') => checkFillsAux env rest s' fills' expired'
    | .error e => .error e

/-- `OrderManager.check_fills(market)`. -/
def check_fills (env : Env) (s : Mgr) : Except Unit (Mgr × List Fill × List Order) :=
  checkFillsAux env s.openOrders s [] []

/-- The operations that drive an `OrderManager`, each carrying the external
data it consumes. `wsDeliver` is the websocket callback appending a fill
message to `self._ws_fills`. The `checkFills` step requires the venue's fill
reports to be bounded by the matched order's size and the call to return
without raising — the well-behaved-venue condition. -/
inductive Step : Mgr → Mgr → Prop where
  | submit (mkt : Market) (side : Side) (price size expiry_secs now : ℚ) (nonce : ℕ)
      (sandboxMode : Bool) (gas_price : ℚ) (resp : Option SubmitResp) {s : Mgr} :
      0 < size →
      Step s (submit_order mkt side price size expiry_secs now nonce sandboxMode
        gas_price resp s).2
  | cancel (oid : String) (sandboxMode : Bool) (gas_price : ℚ) (resp : Option Bool)
      {s : Mgr} : Step s (cancel_order oid sandboxMode gas_price resp s).2
  | cancelStale (maxAge now : ℚ) (sandboxMode : Bool) (gas_price : ℚ)
      (resps : String → Option Bool) {s : Mgr} :
      Step s (cancel_stale maxAge now sandboxMode gas_price resps s).2
  | wsDeliver (wf : WsFill) {s : Mgr} :
      Step s { s with ws_fills := s.ws_fills ++ [wf] }
  | checkFills (env : Env) {s s' : Mgr} {fills : List Fill} {expired : List Order} :
      (∀ wf ∈ s.ws_fills, ∀ k o, pyOrStr wf.order_id wf.orderId = some k →
        (k, o) ∈ s.openOrders → wf.size.getD o.size ≤ o.size) →
      check_fills env s = .ok (s', fills, expired) →
      Step s s'

/-- Manager states reachable from `__init__` under well-behaved venue input. -/
inductive Reachable (rebate_rate : ℚ) : Mgr → Prop where
  | base : Reachable rebate_rate (Mgr.init rebate_rate)
  | step {s s' : Mgr} : Reachable rebate_rate s → Step s s' → Reachable rebate_rate s'

end RB

/-! ### OrderExecutor — `src/polymr/execution/order_executor.py`
Only `update_order_status` is needed by the claims. Timestamps are rationals;
the `client.get_order_status` reply is `report oid` (the `filled_size` field,
with the dict's `.get("filled_size", 0)` default applied; `none` models a
raised-and-caught exception). -/

namespace Exec

/-- `Order` dataclass of `order_executor.py`. -/
structure Order where
  order_id : String
  token_id : String
  side : String
  price : ℚ
  size : ℚ
  filled_size : ℚ := 0
  status : String := "open"
  created_at : ℚ := 0
  last_updated : ℚ := 0
deriving DecidableEq, Repr

/-- The `_open_orders` dict and `_order_history` list of an `OrderExecutor`. -/
structure ExecState where
  openOrders : List (String × Order) := []
  history : List Order := []
deriving DecidableEq, Repr

/-- Dict assignment on the executor's order map. -/
def insertKeyE : List (String × Order) → String → Order → List (String × Order)
  | [], k, o => [(k, o)]
  | (k', o') :: t, k, o => if k' = k then (k, o) :: t else (k', o') :: insertKeyE t k o

/-- `del self._open_orders[order_id]`. -/
def removeKeyE : List (String × Order) → String → List (String × Order)
  | [], _ => []
  | (k', o) :: t, k => if k' = k then t else (k', o) :: removeKeyE t k

/-- The body of `update_order_status`'s loop for one snapshot item. An
unfilled-but-updated order is written back in place; a completed one is
moved to history with status `"filled"`. -/
def updateOne (now : ℚ) (report : String → Option ℚ) (p : String × Order)
    (st : ExecState) : ExecState :=
  match report p.1 with
  | none => st
  | some v =>
    if v > p.2.filled_size then
      let o := { p.2 with filled_size := v, last_updated := now }
      if o.filled_size ≥ o.size then
        { st with
          history := st.history ++ [{ o with status := "filled" }],
          openOrders := removeKeyE st.openOrders p.1 }
      else { st with openOrders := insertKeyE st.openOrders p.1 o }
    else st

/-- `OrderExecutor.update_order_status`. -/
def update_order_status (now : ℚ) (report : String → Option ℚ)
    (st : ExecState) : ExecState :=
  st.openOrders.foldl (fun acc p => updateOne now report p acc) st

end Exec

/-! ## Claims about the PricingModel and QuoteEngine -/

/-- Claim C2: for every configuration with `0 < min_spread_bps ≤ max_spread_bps`
and every `volatility_bps` and `fill_rate` in `[0,1]`, `calculate_optimal_spread`
returns 0 exactly when `market_spread_bps < min_rebate_spread_bps`, and
otherwise returns a value in `[min_spread_bps, max_spread_bps]`. -/
theorem claim2_optimal_spread (config : PricingConfig)
    (market_spread_bps volatility_bps fill_rate : ℚ)
    (hmin : 0 < config.min_spread_bps)
    (hminmax : config.min_spread_bps ≤ config.max_spread_bps)
    (hv0 : 0 ≤ volatility_bps) (hv1 : volatility_bps ≤ 1)
    (hf0 : 0 ≤ fill_rate) (hf1 : fill_rate ≤ 1) :
    (calculate_optimal_spread market_spread_bps volatility_bps fill_rate config = 0 ↔
      market_spread_bps < (config.min_rebate_spread_bps : ℚ)) ∧
    (¬ market_spread_bps < (config.min_rebate_spread_bps : ℚ) →
      config.min_spread_bps ≤
        calculate_optimal_spread market_spread_bps volatility_bps fill_rate config ∧
      calculate_optimal_spread market_spread_bps volatility_bps fill_rate config ≤
        config.max_spread_bps) := by
  unfold calculate_optimal_spread
  by_cases h : market_spread_bps < (config.min_rebate_spread_bps : ℚ)
  · simp only [if_pos h]
    exact ⟨⟨fun _ => h, fun _ => by trivial⟩, fun hc => absurd h hc⟩
  · simp only [if_neg h]
    exact ⟨⟨fun h0 => absurd h0 (by omega), fun hc => absurd hc h⟩,
      fun _ => ⟨le_max_left _ _, max_le hminmax (min_le_right _ _)⟩⟩

/-- Witness for `claim2_optimal_spread` at the default configuration, market
spread 20 bps, volatility 1/2 bp and fill rate 1/4. -/
theorem claim2_witness :
    (calculate_optimal_spread 20 (1/2) (1/4) {} = 0 ↔ (20 : ℚ) < ((10 : ℤ) : ℚ)) ∧
    ¬ (20 : ℚ) < ((10 : ℤ) : ℚ) ∧
    (15 : ℤ) ≤ calculate_optimal_spread 20 (1/2) (1/4) {} ∧
    calculate_optimal_spread 20 (1/2) (1/4) {} ≤ 80 := by
  have h := claim2_optimal_spread {} 20 (1/2) (1/4)
    (by norm_num) (by norm_num) (by norm_num) (by norm_num) (by norm_num) (by norm_num)
  have hlt : ¬ (20 : ℚ) < (((10 : ℤ) : ℚ)) := by norm_num
  have h2 := h.2 (by simpa [PricingConfig.min_rebate_spread_bps, MIN_REBATE_SPREAD_BPS] using hlt)
  refine ⟨by simpa [MIN_REBATE_SPREAD_BPS] using h.1, hlt, ?_, ?_⟩
  · simpa using h2.1
  · simpa using h2.2

/-- Claim C5 (code bug exhibit): at default-style sizing limits
(default 10, max 10, min 1) with `max_exposure_usd = 100` and total exposure
90 (i.e. 90% of the limit, beyond the claimed 80% threshold),
`_calculate_size` returns `10 × 0.5 = 5`, not the `10 × 0.25 = 2.5` that the
claim (and the code's own dead `elif` comment) prescribes: the
`exposure_ratio > 0.8` branch is unreachable behind `> 0.5`. -/
theorem claim5_dead_branch :
    QuoteEngine.calculate_size
      { default_size := 10, min_size := 1, max_size := 10 }
      { max_exposure_usd := 100 } [] 90 "YES" = 5 ∧
    (5 : ℚ) ≠ 10 * (1/4) := by
  constructor
  · simp only [QuoteEngine.calculate_size]
    norm_num
  · norm_num

/-- Claim C6 counterexample: `calculate_quote_prices(0.50, 40, 0.5, 0.0)`
returns exactly `(0.4980, 0.5020)`; the buy price differs from the claimed
`≈ 0.4900` by `0.008`, eighty times the last quoted decimal place, so the
claimed prices are wrong (they would be a 200 bps wide quote). -/
theorem claim6_counterexample :
    calculate_quote_prices (1/2) 40 (1/2) 0 = (some (249/500), some (251/500)) ∧
    ¬ |(249/500 : ℚ) - 49/100| ≤ 1/1000 ∧
    ¬ |(251/500 : ℚ) - 51/100| ≤ 1/1000 := by
  refine ⟨?_, by rw [abs_le]; norm_num, by rw [abs_le]; norm_num⟩
  simp only [calculate_quote_prices]
  norm_num [rnd4, rhe]

/-- Claim C6 as amended: `calculate_quote_prices(0.50, 40, 0.5, 0.0)` returns
buy `0.4980` and sell `0.5020` — a quoted width of exactly 40 bps (of unit
price) symmetric about the mid, i.e. each price is 20 bps from `0.50`. -/
theorem claim6_amended :
    calculate_quote_prices (1/2) 40 (1/2) 0 = (some (249/500), some (251/500)) ∧
    (251/500 : ℚ) - 249/500 = 40/10000 ∧
    ((249/500 : ℚ) + 251/500) / 2 = 1/2 := by
  refine ⟨?_, by norm_num, by norm_num⟩
  simp only [calculate_quote_prices]
  norm_num [rnd4, rhe]

/-- Claim C7 counterexample: with `skew_sensitivity = -1` (a configuration the
claim quantifies over), the positioning factor strictly decreases as `|skew|`
grows from 0 to 1 at fixed spread 15 bps, refuting monotonicity "for every
configuration". -/
theorem claim7_counterexample :
    calculate_positioning_factor 0 15 { skew_sensitivity := -1 } = 1/2 ∧
    calculate_positioning_factor 1 15 { skew_sensitivity := -1 } = 1/5 ∧
    |(0 : ℚ)| ≤ |(1 : ℚ)| ∧ ((1 : ℚ)/5 < 1/2) := by
  refine ⟨?_, ?_, by norm_num, by norm_num⟩ <;>
    · simp only [calculate_positioning_factor]
      norm_num

/-- Claim C7 as amended: for every configuration, skew and spread the
positioning factor lies in `[0.2, 0.8]`; and for configurations with
non-negative `skew_sensitivity` (the spec's intended reading, default 0.3)
it is monotonically non-decreasing in `|skew|` at fixed spread and config. -/
theorem claim7_amended (config : PricingConfig) (skew s₁ s₂ : ℚ) (spread_bps : ℤ) :
    (1/5 ≤ calculate_positioning_factor skew spread_bps config ∧
      calculate_positioning_factor skew spread_bps config ≤ 4/5) ∧
    (0 ≤ config.skew_sensitivity → |s₁| ≤ |s₂| →
      calculate_positioning_factor s₁ spread_bps config ≤
        calculate_positioning_factor s₂ spread_bps config) := by
  unfold calculate_positioning_factor
  refine ⟨⟨le_max_left _ _, max_le (by norm_num) (min_le_left _ _)⟩, ?_⟩
  intro hsens habs
  have h : |s₁| * config.skew_sensitivity ≤ |s₂| * config.skew_sensitivity :=
    mul_le_mul_of_nonneg_right habs hsens
  exact max_le_max le_rfl (min_le_min le_rfl (by linarith))

/-- Witness for `claim7_amended`: default configuration, spread 15 bps,
skews 0 and 1. -/
theorem claim7_witness :
    (1/5 ≤ calculate_positioning_factor 1 15 {} ∧
      calculate_positioning_factor 1 15 {} ≤ 4/5) ∧
    calculate_positioning_factor 0 15 {} ≤ calculate_positioning_factor 1 15 {} := by
  exact ⟨(claim7_amended {} 1 0 1 15).1,
    (claim7_amended {} 1 0 1 15).2 (by norm_num) (by norm_num)⟩

/-- Claim C8 counterexample: at `mid = 0.96`, `spread_bps = 40`,
`positioning_factor = 0.5`, both the zero-skew call and the call with the
strictly positive skew 10 return prices, yet the positive-skew buy price
`0.9504` is strictly LOWER than the zero-skew buy price `0.9580`: the raw
skewed buy candidate `1.008` escapes `(0,1)`, so the code substitutes
`mid × 0.99`, reversing the claimed strict increase. -/
theorem claim8_counterexample :
    calculate_quote_prices (24/25) 40 (1/2) 0 = (some (479/500), some (481/500)) ∧
    calculate_quote_prices (24/25) 40 (1/2) 10 = (some (594/625), some (114/125)) ∧
    ((594/625 : ℚ) < 479/500) := by
  refine ⟨?_, ?_, by norm_num⟩ <;>
    · simp only [calculate_quote_prices]
      norm_num [rnd4, rhe]

/-- When neither rounded price candidate needs the boundary substitution,
`calculate_quote_prices` returns exactly the rounded candidates. -/
theorem cqp_no_subst (mid : ℚ) (spread_bps : ℤ) (pf sk : ℚ)
    (hguard : ¬ (spread_bps ≤ 0 ∨ mid ≤ 0 ∨ mid ≥ 1))
    (hbl : 0 < rnd4 (mid - ((spread_bps : ℚ) * pf) / 10000 + sk * (5/1000)))
    (hbu : rnd4 (mid - ((spread_bps : ℚ) * pf) / 10000 + sk * (5/1000)) < 1)
    (hsl : 0 < rnd4 (mid + ((spread_bps : ℚ) * pf) / 10000 - sk * (5/1000)))
    (hsu : rnd4 (mid + ((spread_bps : ℚ) * pf) / 10000 - sk * (5/1000)) < 1) :
    calculate_quote_prices mid spread_bps pf sk =
      (some (rnd4 (mid - ((spread_bps : ℚ) * pf) / 10000 + sk * (5/1000))),
       some (rnd4 (mid + ((spread_bps : ℚ) * pf) / 10000 - sk * (5/1000)))) := by
  simp only [calculate_quote_prices, if_neg hguard]
  have h1 : ¬ (rnd4 (mid - ((spread_bps : ℚ) * pf) / 10000 + sk * (5/1000)) ≤ 0 ∨
      rnd4 (mid - ((spread_bps : ℚ) * pf) / 10000 + sk * (5/1000)) ≥ 1) := by
    push_neg
    exact ⟨hbl, hbu⟩
  have h2 : ¬ (rnd4 (mid + ((spread_bps : ℚ) * pf) / 10000 - sk * (5/1000)) ≤ 0 ∨
      rnd4 (mid + ((spread_bps : ℚ) * pf) / 10000 - sk * (5/1000)) ≥ 1) := by
    push_neg
    exact ⟨hsl, hsu⟩
  rw [if_neg h1, if_neg h2, if_neg (by push_neg; exact ⟨hbl, hbu, hsl, hsu⟩)]

/-- Claim C8 as amended: restricted to calls in which no boundary
substitution fires (all four rounded price candidates already lie strictly
inside `(0,1)`), a strictly positive skew yields a buy price at least the
zero-skew buy price and a sell price at most the zero-skew sell price
(non-strict, because `round(·, 4)` can absorb a small skew adjustment). -/
theorem claim8_amended (mid : ℚ) (spread_bps : ℤ) (positioning_factor skew : ℚ)
    (hsp : 0 < spread_bps) (hm0 : 0 < mid) (hm1 : mid < 1) (hskew : 0 < skew)
    (hb0l : 0 < rnd4 (mid - ((spread_bps : ℚ) * positioning_factor) / 10000 + 0 * (5/1000)))
    (hb0u : rnd4 (mid - ((spread_bps : ℚ) * positioning_factor) / 10000 + 0 * (5/1000)) < 1)
    (hs0l : 0 < rnd4 (mid + ((spread_bps : ℚ) * positioning_factor) / 10000 - 0 * (5/1000)))
    (hs0u : rnd4 (mid + ((spread_bps : ℚ) * positioning_factor) / 10000 - 0 * (5/1000)) < 1)
    (hb1l : 0 < rnd4 (mid - ((spread_bps : ℚ) * positioning_factor) / 10000 + skew * (5/1000)))
    (hb1u : rnd4 (mid - ((spread_bps : ℚ) * positioning_factor) / 10000 + skew * (5/1000)) < 1)
    (hs1l : 0 < rnd4 (mid + ((spread_bps : ℚ) * positioning_factor) / 10000 - skew * (5/1000)))
    (hs1u : rnd4 (mid + ((spread_bps : ℚ) * positioning_factor) / 10000 - skew * (5/1000)) < 1) :
    calculate_quote_prices mid spread_bps positioning_factor 0 =
      (some (rnd4 (mid - ((spread_bps : ℚ) * positioning_factor) / 10000 + 0 * (5/1000))),
       some (rnd4 (mid + ((spread_bps : ℚ) * positioning_factor) / 10000 - 0 * (5/1000)))) ∧
    calculate_quote_prices mid spread_bps positioning_factor skew =
      (some (rnd4 (mid - ((spread_bps : ℚ) * positioning_factor) / 10000 + skew * (5/1000))),
       some (rnd4 (mid + ((spread_bps : ℚ) * positioning_factor) / 10000 - skew * (5/1000)))) ∧
    rnd4 (mid - ((spread_bps : ℚ) * positioning_factor) / 10000 + 0 * (5/1000)) ≤
      rnd4 (mid - ((spread_bps : ℚ) * positioning_factor) / 10000 + skew * (5/1000)) ∧
    rnd4 (mid + ((spread_bps : ℚ) * positioning_factor) / 10000 - skew * (5/1000)) ≤
      rnd4 (mid + ((spread_bps : ℚ) * positioning_factor) / 10000 - 0 * (5/1000)) := by
  have hguard : ¬ (spread_bps ≤ 0 ∨ mid ≤ 0 ∨ mid ≥ 1) := by
    push_neg
    exact ⟨hsp, hm0, hm1⟩
  have hsk : 0 * (5/1000 : ℚ) ≤ skew * (5/1000) := by nlinarith
  exact ⟨cqp_no_subst mid spread_bps positioning_factor 0 hguard hb0l hb0u hs0l hs0u,
    cqp_no_subst mid spread_bps positioning_factor skew hguard hb1l hb1u hs1l hs1u,
    rnd4_mono (by linarith), rnd4_mono (by linarith)⟩

/-- Witness for `claim8_amended` at `mid = 0.5`, `spread_bps = 40`,
`positioning_factor = 0.5`, skew 1: the skewed call quotes buy `0.5030`
and sell `0.4970` against the zero-skew `0.4980` / `0.5020`. -/
theorem claim8_witness :
    calculate_quote_prices (1/2) 40 (1/2) 0 = (some (249/500), some (251/500)) ∧
    calculate_quote_prices (1/2) 40 (1/2) 1 = (some (503/1000), some (497/1000)) ∧
    ((249/500 : ℚ) ≤ 503/1000) ∧ ((497/1000 : ℚ) ≤ 251/500) := by
  have h := claim8_amended (1/2) 40 (1/2) 1 (by norm_num) (by norm_num) (by norm_num)
    (by norm_num) (by norm_num [rnd4, rhe]) (by norm_num [rnd4, rhe])
    (by norm_num [rnd4, rhe]) (by norm_num [rnd4, rhe]) (by norm_num [rnd4, rhe])
    (by norm_num [rnd4, rhe]) (by norm_num [rnd4, rhe]) (by norm_num [rnd4, rhe])
  obtain ⟨h1, h2, h3, h4⟩ := h
  refine ⟨?_, ?_, ?_, ?_⟩
  · rw [h1]
    norm_num [rnd4, rhe]
  · rw [h2]
    norm_num [rnd4, rhe]
  · norm_num
  · norm_num

/-! ## Claims about the RiskManager -/

/-- One operation preserves "paused states carry a resume time": the only
code path that sets `trading_paused` is `_trigger_circuit_breaker`, which
always sets `pause_until`. -/
theorem pausedInv_step (op : RiskOp) (rm : RiskManager)
    (ih : rm.state.trading_paused = true → ∃ t, rm.state.pause_until = some t) :
    (runRiskOp op rm).state.trading_paused = true →
      ∃ t, (runRiskOp op rm).state.pause_until = some t := by
  cases op with
  | preTrade token side size price exposure inv => exact ih
  | dailyLoss now pnl =>
    simp only [runRiskOp, RiskManager.check_daily_loss_limit]
    split_ifs <;> first | exact ih | (intro _; exact ⟨_, rfl⟩)
  | consecutiveLosses now l =>
    simp only [runRiskOp, RiskManager.check_consecutive_losses]
    split_ifs <;> first | exact ih | (intro _; exact ⟨_, rfl⟩)
  | apiFailure now =>
    simp only [runRiskOp, RiskManager.record_api_failure]
    split_ifs <;> first | exact ih | (intro _; exact ⟨_, rfl⟩)
  | apiSuccess => exact ih
  | updateEquity e p =>
    simp only [runRiskOp, RiskManager.update_equity]
    split_ifs <;> exact ih
  | circuitBreakers now =>
    simp only [runRiskOp, RiskManager.check_circuit_breakers]
    split_ifs with h
    · cases hu : rm.state.pause_until with
      | none =>
        simp only [hu]
        intro _
        obtain ⟨t, ht⟩ := ih h
        rw [hu] at ht
        simp at ht
      | some t =>
        simp only [hu]
        split_ifs with h2
        · intro hp
          simp at hp
        · exact ih
    · exact ih

/-- Every reachable paused `RiskManager` state carries a resume time. -/
theorem paused_has_pause_until {rc : RiskConfig} {ic : InventoryConfig} {e0 : ℚ}
    {rm : RiskManager} (h : RiskReachable rc ic e0 rm) :
    rm.state.trading_paused = true → ∃ t, rm.state.pause_until = some t := by
  induction h with
  | base => intro hp; simp [RiskManager.init] at hp
  | step op hreach ih => exact pausedInv_step op _ ih

/-- Claim C1: whenever `trading_paused` is true, `check_pre_trade` returns
`allowed = false` regardless of its arguments; no operation other than
`check_circuit_breakers` ever sets `trading_paused` back to false; and on a
reachable paused state `check_circuit_breakers` clears the pause — resetting
the reason and resume time — exactly on the first call with `now ≥
pause_until` (earlier calls leave the manager unchanged). -/
theorem claim1_pause_semantics :
    (∀ (rm : RiskManager) (token side : String) (size price exposure : ℚ)
      (inv : List ℚ), rm.state.trading_paused = true →
      (RiskManager.check_pre_trade rm token side size price exposure inv).allowed = false) ∧
    (∀ (op : RiskOp) (rm : RiskManager), op.isCircuitBreakers = false →
      rm.state.trading_paused = true → (runRiskOp op rm).state.trading_paused = true) ∧
    (∀ (rc : RiskConfig) (ic : InventoryConfig) (e0 : ℚ) (rm : RiskManager),
      RiskReachable rc ic e0 rm → rm.state.trading_paused = true →
      ∃ t, rm.state.pause_until = some t ∧
        (∀ now : ℚ, t ≤ now →
          (RiskManager.check_circuit_breakers now rm).2.state.trading_paused = false ∧
          (RiskManager.check_circuit_breakers now rm).2.state.pause_reason = "" ∧
          (RiskManager.check_circuit_breakers now rm).2.state.pause_until = none) ∧
        (∀ now : ℚ, now < t →
          (RiskManager.check_circuit_breakers now rm).2 = rm)) := by
  refine ⟨?_, ?_, ?_⟩
  · intro rm token side size price exposure inv hp
    simp [RiskManager.check_pre_trade, hp]
  · intro op rm hop hp
    cases op with
    | preTrade token side size price exposure inv => exact hp
    | dailyLoss now pnl =>
      simp only [runRiskOp, RiskManager.check_daily_loss_limit]
      split_ifs <;> first | exact hp | rfl
    | consecutiveLosses now l =>
      simp only [runRiskOp, RiskManager.check_consecutive_losses]
      split_ifs <;> first | exact hp | rfl
    | apiFailure now =>
      simp only [runRiskOp, RiskManager.record_api_failure]
      split_ifs <;> first | exact hp | rfl
    | apiSuccess => exact hp
    | updateEquity e p =>
      simp only [runRiskOp, RiskManager.update_equity]
      split_ifs <;> exact hp
    | circuitBreakers now => simp [RiskOp.isCircuitBreakers] at hop
  · intro rc ic e0 rm hreach hp
    obtain ⟨t, ht⟩ := paused_has_pause_until hreach hp
    refine ⟨t, ht, ?_, ?_⟩
    · intro now hnow
      simp [RiskManager.check_circuit_breakers, hp, ht, hnow]
    · intro now hnow
      simp [RiskManager.check_circuit_breakers, hp, ht, not_le.mpr hnow]

/-- Witness for `claim1_pause_semantics`: after five `record_api_failure`
calls at time 0 the manager is paused until minute 5; `check_pre_trade` is
then disallowed, `record_api_success` leaves the pause in place, a
`check_circuit_breakers` at minute 3 changes nothing, and one at minute 7
resumes trading with reason and resume time cleared. -/
theorem claim1_witness :
    (RiskManager.check_pre_trade
      (runRiskOp (.apiFailure 0) (runRiskOp (.apiFailure 0) (runRiskOp (.apiFailure 0)
        (runRiskOp (.apiFailure 0) (runRiskOp (.apiFailure 0)
          (RiskManager.init {} {} 10000))))))
      "tok" "BUY" 1 (1/2) 0 []).allowed = false ∧
    (runRiskOp .apiSuccess
      (runRiskOp (.apiFailure 0) (runRiskOp (.apiFailure 0) (runRiskOp (.apiFailure 0)
        (runRiskOp (.apiFailure 0) (runRiskOp (.apiFailure 0)
          (RiskManager.init {} {} 10000))))))).state.trading_paused = true ∧
    (RiskManager.check_circuit_breakers 3
      (runRiskOp (.apiFailure 0) (runRiskOp (.apiFailure 0) (runRiskOp (.apiFailure 0)
        (runRiskOp (.apiFailure 0) (runRiskOp (.apiFailure 0)
          (RiskManager.init {} {} 10000))))))).2 =
      (runRiskOp (.apiFailure 0) (runRiskOp (.apiFailure 0) (runRiskOp (.apiFailure 0)
        (runRiskOp (.apiFailure 0) (runRiskOp (.apiFailure 0)
          (RiskManager.init {} {} 10000)))))) ∧
    (RiskManager.check_circuit_breakers 7
      (runRiskOp (.apiFailure 0) (runRiskOp (.apiFailure 0) (runRiskOp (.apiFailure 0)
        (runRiskOp (.apiFailure 0) (runRiskOp (.apiFailure 0)
          (RiskManager.init {} {} 10000))))))).2.state.trading_paused = false ∧
    (RiskManager.check_circuit_breakers 7
      (runRiskOp (.apiFailure 0) (runRiskOp (.apiFailure 0) (runRiskOp (.apiFailure 0)
        (runRiskOp (.apiFailure 0) (runRiskOp (.apiFailure 0)
          (RiskManager.init {} {} 10000))))))).2.state.pause_reason = "" := by
  have hreach : RiskReachable {} {} 10000
      (runRiskOp (.apiFailure 0) (runRiskOp (.apiFailure 0) (runRiskOp (.apiFailure 0)
        (runRiskOp (.apiFailure 0) (runRiskOp (.apiFailure 0)
          (RiskManager.init {} {} 10000)))))) :=
    .step _ (.step _ (.step _ (.step _ (.step _ .base))))
  have hpaused : (runRiskOp (.apiFailure 0) (runRiskOp (.apiFailure 0)
      (runRiskOp (.apiFailure 0) (runRiskOp (.apiFailure 0) (runRiskOp (.apiFailure 0)
        (RiskManager.init {} {} 10000)))))).state.trading_paused = true := by
    simp [runRiskOp, RiskManager.record_api_failure, RiskManager.init,
      RiskManager.trigger_circuit_breaker]
  have huntil : (runRiskOp (.apiFailure 0) (runRiskOp (.apiFailure 0)
      (runRiskOp (.apiFailure 0) (runRiskOp (.apiFailure 0) (runRiskOp (.apiFailure 0)
        (RiskManager.init {} {} 10000)))))).state.pause_until = some 5 := by
    simp [runRiskOp, RiskManager.record_api_failure, RiskManager.init,
      RiskManager.trigger_circuit_breaker]
  obtain ⟨t, ht, hclear, hkeep⟩ :=
    claim1_pause_semantics.2.2 {} {} 10000 _ hreach hpaused
  have ht5 : t = 5 := by rw [ht] at huntil; exact (Option.some.injEq _ _).mp huntil
  refine ⟨claim1_pause_semantics.1 _ "tok" "BUY" 1 (1/2) 0 [] hpaused, ?_, ?_, ?_, ?_⟩
  · exact claim1_pause_semantics.2.1 .apiSuccess _ rfl hpaused
  · exact hkeep 3 (by rw [ht5]; norm_num)
  · exact (hclear 7 (by rw [ht5]; norm_num)).1
  · exact (hclear 7 (by rw [ht5]; norm_num)).2.1

/-- An API-outcome event: a failure recorded at a time, or a success. -/
inductive ApiEvent where
  | success
  | failure (now : ℚ)
deriving DecidableEq, Repr

/-- Whether an event is a failure. -/
def ApiEvent.isFailure : ApiEvent → Bool
  | .failure _ => true
  | .success => false

/-- Run a sequence of `record_api_failure` / `record_api_success` calls. -/
def runApi (evs : List ApiEvent) (rm : RiskManager) : RiskManager :=
  evs.foldl (fun rm e =>
    match e with
    | .failure now => RiskManager.record_api_failure now rm
    | .success => RiskManager.record_api_success rm) rm

/-- Number of failures at the end of the sequence with no intervening
success. -/
def trailingFailures (evs : List ApiEvent) : ℕ :=
  (evs.reverse.takeWhile ApiEvent.isFailure).length

theorem record_api_failure_count (now : ℚ) (rm : RiskManager) :
    (RiskManager.record_api_failure now rm).state.api_failure_count =
      rm.state.api_failure_count + 1 := by
  simp only [RiskManager.record_api_failure]
  split_ifs <;> rfl

theorem runApi_count (evs : List ApiEvent) (rm : RiskManager) :
    (runApi evs rm).state.api_failure_count =
      if evs.all ApiEvent.isFailure then rm.state.api_failure_count + evs.length
      else trailingFailures evs := by
  induction evs using List.reverseRecOn with
  | nil => simp [runApi, trailingFailures]
  | append_singleton l e ih =>
    have hstep : runApi (l ++ [e]) rm =
        (match e with
          | .failure now => RiskManager.record_api_failure now (runApi l rm)
          | .success => RiskManager.record_api_success (runApi l rm)) := by
      simp [runApi]
    cases e with
    | success =>
      rw [hstep]
      have : ¬ (l ++ [ApiEvent.success]).all ApiEvent.isFailure := by
        simp [ApiEvent.isFailure]
      rw [if_neg this]
      simp [RiskManager.record_api_success, trailingFailures, ApiEvent.isFailure]
    | failure now =>
      rw [hstep, record_api_failure_count, ih]
      have hall : (l ++ [ApiEvent.failure now]).all ApiEvent.isFailure =
          l.all ApiEvent.isFailure := by
        simp [ApiEvent.isFailure]
      have htrail : trailingFailures (l ++ [ApiEvent.failure now]) =
          trailingFailures l + 1 := by
        simp [trailingFailures, List.takeWhile, ApiEvent.isFailure]
      rw [hall, htrail]
      by_cases h : l.all ApiEvent.isFailure
      · rw [if_pos h, if_pos h]
        simp
        omega
      · rw [if_neg h, if_neg h]

/-- If every event is a failure, the whole list is the trailing failure run. -/
theorem trailingFailures_of_all {evs : List ApiEvent}
    (h : evs.all ApiEvent.isFailure) : trailingFailures evs = evs.length := by
  unfold trailingFailures
  rw [List.takeWhile_eq_self_iff.mpr, List.length_reverse]
  intro a ha
  exact (List.all_eq_true.mp h) a (List.mem_reverse.mp ha)

/-- Claim C9: `record_api_success` resets the failure counter to 0 (and
changes nothing else); `record_api_failure` increments it by one, trips the
5-minute API circuit breaker exactly when the incremented count reaches the
threshold 5 and otherwise changes nothing but the counter and timestamp;
consequently from a fresh manager the counter always equals the number of
trailing failures with no intervening success, so reaching the trip
threshold requires 5 such failures. -/
theorem claim9_api_failure_breaker :
    (∀ rm : RiskManager, RiskManager.record_api_success rm =
      { rm with state := { rm.state with api_failure_count := 0 } }) ∧
    (∀ (rm : RiskManager) (now : ℚ),
      (RiskManager.record_api_failure now rm).state.api_failure_count =
        rm.state.api_failure_count + 1 ∧
      (5 ≤ rm.state.api_failure_count + 1 →
        (RiskManager.record_api_failure now rm).state.trading_paused = true ∧
        (RiskManager.record_api_failure now rm).state.pause_until = some (now + 5)) ∧
      (rm.state.api_failure_count + 1 < 5 →
        RiskManager.record_api_failure now rm =
          { rm with state := { rm.state with
              api_failure_count := rm.state.api_failure_count + 1,
              last_api_failure := some now } })) ∧
    (∀ (evs : List ApiEvent) (rc : RiskConfig) (ic : InventoryConfig) (e0 : ℚ),
      (runApi evs (RiskManager.init rc ic e0)).state.api_failure_count =
        trailingFailures evs) ∧
    (∀ (evs : List ApiEvent) (rc : RiskConfig) (ic : InventoryConfig) (e0 : ℚ),
      5 ≤ (runApi evs (RiskManager.init rc ic e0)).state.api_failure_count + 1 →
      4 ≤ trailingFailures evs) := by
  have hcount : ∀ (evs : List ApiEvent) (rc : RiskConfig) (ic : InventoryConfig)
      (e0 : ℚ), (runApi evs (RiskManager.init rc ic e0)).state.api_failure_count =
      trailingFailures evs := by
    intro evs rc ic e0
    rw [runApi_count]
    by_cases h : evs.all ApiEvent.isFailure
    · rw [if_pos h, trailingFailures_of_all h]
      simp [RiskManager.init]
    · rw [if_neg h]
  refine ⟨fun rm => rfl, ?_, hcount, ?_⟩
  · intro rm now
    refine ⟨record_api_failure_count now rm, ?_, ?_⟩
    · intro h5
      simp only [RiskManager.record_api_failure]
      rw [if_pos (by simpa using h5)]
      exact ⟨rfl, rfl⟩
    · intro h5
      simp only [RiskManager.record_api_failure]
      rw [if_neg (by simpa using Nat.not_le.mpr h5)]
  · intro evs rc ic e0 h
    rw [hcount] at h
    omega

/-- A default-configured manager with a given prior API failure count. -/
def rmWithFailures (n : ℕ) : RiskManager :=
  { risk := {}, inventory := {}, state := { api_failure_count := n } }

/-- Witness for `claim9_api_failure_breaker`: a manager with four prior
failures trips on the fifth at time 7 (pausing until minute 12), a manager
with three prior failures does not, and five straight failures from a fresh
manager leave the counter at 5 = the trailing-failure run length. -/
theorem claim9_witness :
    (RiskManager.record_api_failure 7 (rmWithFailures 4)).state.trading_paused = true ∧
    (RiskManager.record_api_failure 7 (rmWithFailures 4)).state.pause_until = some 12 ∧
    (RiskManager.record_api_failure 7 (rmWithFailures 3)).state.trading_paused = false ∧
    (runApi [.failure 0, .failure 1, .failure 2, .failure 3, .failure 4]
      (RiskManager.init {} {} 100)).state.api_failure_count = 5 := by
  obtain ⟨hsucc, hfail, hrun, htrip⟩ := claim9_api_failure_breaker
  obtain ⟨h1, h2, h3⟩ := hfail (rmWithFailures 4) 7
  obtain ⟨hp, hu⟩ := h2 (by norm_num [rmWithFailures])
  refine ⟨hp, by rw [hu]; norm_num, ?_, ?_⟩
  · obtain ⟨_, _, h3'⟩ := hfail (rmWithFailures 3) 7
    rw [h3' (by norm_num [rmWithFailures])]
    simp [rmWithFailures]
  · rw [hrun [.failure 0, .failure 1, .failure 2, .failure 3, .failure 4] {} {} 100]
    rfl

/-! ## Claims about the OrderManager (`run_bot.py`) -/

namespace RB

theorem findOrd_mem {l : List (String × Order)} {k : String} {o : Order}
    (h : findOrd l k = some o) : (k, o) ∈ l := by
  induction l with
  | nil => simp [findOrd] at h
  | cons p t ih =>
    obtain ⟨k', o'⟩ := p
    by_cases hk : k' = k
    · subst hk
      simp [findOrd] at h
      subst h
      exact List.mem_cons_self _ _
    · simp only [findOrd, if_neg hk] at h
      exact List.mem_cons_of_mem _ (ih h)

theorem removeKey_subset {l : List (String × Order)} {k : String} :
    ∀ x ∈ removeKey l k, x ∈ l := by
  induction l with
  | nil => simp [removeKey]
  | cons p t ih =>
    obtain ⟨k', o'⟩ := p
    intro x hx
    by_cases hk : k' = k
    · simp only [removeKey, if_pos hk] at hx
      exact List.mem_cons_of_mem _ hx
    · simp only [removeKey, if_neg hk] at hx
      rcases List.mem_cons.mp hx with h | h
      · exact h ▸ List.mem_cons_self _ _
      · exact List.mem_cons_of_mem _ (ih x h)

theorem insertKey_mem {l : List (String × Order)} {k : String} {o : Order} :
    ∀ x ∈ insertKey l k o, x = (k, o) ∨ x ∈ l := by
  induction l with
  | nil => simp [insertKey]
  | cons p t ih =>
    obtain ⟨k', o'⟩ := p
    intro x hx
    by_cases hk : k' = k
    · simp only [insertKey, if_pos hk] at hx
      rcases List.mem_cons.mp hx with h | h
      · exact Or.inl h
      · exact Or.inr (List.mem_cons_of_mem _ h)
    · simp only [insertKey, if_neg hk] at hx
      rcases List.mem_cons.mp hx with h | h
      · exact Or.inr (h ▸ List.mem_cons_self _ _)
      · rcases ih x h with h' | h'
        · exact Or.inl h'
        · exact Or.inr (List.mem_cons_of_mem _ h')

/-- Total size of the BUY orders of a list belonging to a market. -/
def buySizeOn (l : List Order) (m : String) : ℚ :=
  ((l.filter (fun o => o.market_id = m ∧ o.side = Side.BUY)).map Order.size).sum

/-- Total size of the SELL orders of a list belonging to a market. -/
def sellSizeOn (l : List Order) (m : String) : ℚ :=
  ((l.filter (fun o => o.market_id = m ∧ o.side = Side.SELL)).map Order.size).sum

theorem buySizeOn_nil (m : String) : buySizeOn [] m = 0 := rfl

theorem sellSizeOn_nil (m : String) : sellSizeOn [] m = 0 := rfl

theorem buySizeOn_cons (o : Order) (l : List Order) (m : String) :
    buySizeOn (o :: l) m =
      (if o.market_id = m ∧ o.side = Side.BUY then o.size else 0) + buySizeOn l m := by
  simp only [buySizeOn, List.filter_cons]
  split_ifs with h h2 h3 <;> simp_all

theorem sellSizeOn_cons (o : Order) (l : List Order) (m : String) :
    sellSizeOn (o :: l) m =
      (if o.market_id = m ∧ o.side = Side.SELL then o.size else 0) + sellSizeOn l m := by
  simp only [sellSizeOn, List.filter_cons]
  split_ifs with h h2 h3 <;> simp_all

theorem buySizeOn_append (a b : List Order) (m : String) :
    buySizeOn (a ++ b) m = buySizeOn a m + buySizeOn b m := by
  simp [buySizeOn, List.filter_append]

theorem sellSizeOn_append (a b : List Order) (m : String) :
    sellSizeOn (a ++ b) m = sellSizeOn a m + sellSizeOn b m := by
  simp [sellSizeOn, List.filter_append]

theorem bumpInv_yes (inv : String → Inv) (mk : String) (side : Side) (q : ℚ)
    (m : String) :
    (bumpInv inv mk side q m).yes =
      (inv m).yes + (if mk = m ∧ side = Side.BUY then q else 0) := by
  unfold bumpInv
  by_cases hm : m = mk
  · subst hm
    cases side <;> simp
  · rw [if_neg hm, if_neg (fun hc => hm hc.1.symm)]
    ring

theorem bumpInv_no (inv : String → Inv) (mk : String) (side : Side) (q : ℚ)
    (m : String) :
    (bumpInv inv mk side q m).no =
      (inv m).no + (if mk = m ∧ side = Side.SELL then q else 0) := by
  unfold bumpInv
  by_cases hm : m = mk
  · subst hm
    cases side <;> simp
  · rw [if_neg hm, if_neg (fun hc => hm hc.1.symm)]
    ring

theorem forall2_append {α β : Type} {R : α → β → Prop} {a₁ b₁ : List α}
    {a₂ b₂ : List β} (h1 : List.Forall₂ R a₁ a₂) (h2 : List.Forall₂ R b₁ b₂) :
    List.Forall₂ R (a₁ ++ b₁) (a₂ ++ b₂) := by
  induction h1 with
  | nil => exact h2
  | cons h _ ih => exact List.Forall₂.cons h ih

/-- Full characterisation of the websocket-fill inner loop: the filled
history and the returned fill list extend in lockstep (one appended order per
fill, same side), inventory grows by exactly the matched order's full size on
the matched order's market and side, nothing else changes, open orders and
pending websocket messages only shrink, and — when every websocket-reported
size is bounded by its matched order's size and open orders satisfy
`filled_qty ≤ size` — every appended order satisfies `filled_qty ≤ size`. -/
theorem wsLoop_spec (fee : ℤ) :
    ∀ (ws : List WsFill) (s : Mgr) (fills : List Fill) (processed : Bool)
      (s' : Mgr) (fills' : List Fill) (processed' : Bool),
    wsLoop fee ws s fills processed = (s', fills', processed') →
    ∃ (newFills : List Fill) (newly : List Order),
      s'.filled = s.filled ++ newly ∧
      fills' = fills ++ newFills ∧
      List.Forall₂ (fun (f : Fill) (o : Order) => f.side = o.side) newFills newly ∧
      (∀ m, ((s'.inventory m).yes = (s.inventory m).yes + buySizeOn newly m) ∧
            ((s'.inventory m).no = (s.inventory m).no + sellSizeOn newly m)) ∧
      s'.cancelled = s.cancelled ∧
      (∀ p ∈ s'.openOrders, p ∈ s.openOrders) ∧
      (∀ wf ∈ s'.ws_fills, wf ∈ s.ws_fills) ∧
      s'.rebate_rate = s.rebate_rate ∧
      s'.placed = s.placed ∧
      s'.cancelled_count = s.cancelled_count ∧
      ((∀ wf ∈ ws, ∀ k o, pyOrStr wf.order_id wf.orderId = some k →
          (k, o) ∈ s.openOrders → wf.size.getD o.size ≤ o.size) →
        (∀ p ∈ s.openOrders, p.2.filled_qty ≤ p.2.size) →
        ∀ o ∈ newly, o.filled_qty ≤ o.size) := by
  intro ws
  induction ws with
  | nil =>
    intro s fills processed s' fills' processed' h
    simp only [wsLoop, Prod.mk.injEq] at h
    obtain ⟨hs, hf, _⟩ := h
    subst hs hf
    exact ⟨[], [], by simp, by simp, .nil, by simp [buySizeOn_nil, sellSizeOn_nil],
      rfl, fun p hp => hp, fun wf hwf => hwf, rfl, rfl, rfl, fun _ _ o ho => by simp at ho⟩
  | cons wf rest ih =>
    intro s fills processed s' fills' processed' h
    simp only [wsLoop] at h
    cases hk : pyOrStr wf.order_id wf.orderId with
    | none =>
      rw [hk] at h
      simp only [] at h
      obtain ⟨nf, no', h1, h2, h3, h4, h5, h6, h7, h8, h9, h10, h11⟩ :=
        ih s fills processed s' fills' processed' h
      exact ⟨nf, no', h1, h2, h3, h4, h5, h6, h7, h8, h9, h10,
        fun hws hop => h11 (fun wf' hwf' => hws wf' (List.mem_cons_of_mem _ hwf')) hop⟩
    | some k =>
      rw [hk] at h
      simp only [] at h
      by_cases hke : k = ""
      · rw [if_pos hke] at h
        obtain ⟨nf, no', h1, h2, h3, h4, h5, h6, h7, h8, h9, h10, h11⟩ :=
          ih s fills processed s' fills' processed' h
        exact ⟨nf, no', h1, h2, h3, h4, h5, h6, h7, h8, h9, h10,
          fun hws hop => h11 (fun wf' hwf' => hws wf' (List.mem_cons_of_mem _ hwf')) hop⟩
      · rw [if_neg hke] at h
        cases ho : findOrd s.openOrders k with
        | none =>
          rw [ho] at h
          simp only [] at h
          obtain ⟨nf, no', h1, h2, h3, h4, h5, h6, h7, h8, h9, h10, h11⟩ :=
            ih s fills processed s' fills' processed' h
          exact ⟨nf, no', h1, h2, h3, h4, h5, h6, h7, h8, h9, h10,
            fun hws hop => h11 (fun wf' hwf' => hws wf' (List.mem_cons_of_mem _ hwf')) hop⟩
        | some o =>
          rw [ho] at h
          simp only [] at h
          obtain ⟨nf, no', h1, h2, h3, h4, h5, h6, h7, h8, h9, h10, h11⟩ :=
            ih _ _ _ s' fills' processed' h
          refine ⟨(⟨k, o.side, wf.size.getD o.size, wf.price.getD o.price, calc_rebate s.rebate_rate (wf.size.getD o.size) (wf.price.getD o.price) fee⟩ : Fill) :: nf, ({ o with filled_qty := wf.size.getD o.size, filled_price := wf.price.getD o.price, status := Status.FILLED } : Order) :: no', ?_, ?_, ?_, ?_, ?_, ?_, ?_, ?_, ?_, ?_, ?_⟩
          · rw [h1]
            simp
          · rw [h2]
            simp
          · exact List.Forall₂.cons rfl h3
          · intro m
            have hy := (h4 m).1
            have hn := (h4 m).2
            rw [hy, hn]
            simp only [bumpInv_yes, bumpInv_no, buySizeOn_cons, sellSizeOn_cons]
            constructor <;> ring
          · exact h5
          · intro p hp
            exact removeKey_subset _ (h6 p hp)
          · intro wf' hwf'
            exact List.mem_of_mem_erase (h7 wf' hwf')
          · exact h8
          · exact h9
          · exact h10
          · intro hws hop o' ho'
            rcases List.mem_cons.mp ho' with he | he
            · subst he
              exact hws wf (List.mem_cons_self _ _) k o hk (findOrd_mem ho)
            · refine h11 ?_ ?_ o' he
              · intro wf' hwf' k' o'' hk' hmem
                exact hws wf' (List.mem_cons_of_mem _ hwf') k' o'' hk'
                  (removeKey_subset _ hmem)
              · intro p hp
                exact hop p (removeKey_subset _ hp)

/-- Characterisation of one outer `check_fills` iteration: the filled history
and returned fill list extend in lockstep; each recorded fill updates the
inventory of the matched order's market on the side given by the order by
exactly the order's full size; cancelled history, open-order entries and
pending websocket messages never grow; and with bounded websocket reports
plus `filled_qty ≤ size` on open orders and on the snapshot item, every
appended order still satisfies `filled_qty ≤ size`. In the sandbox path the
recorded fill quantity equals the order size. -/
theorem processOne_spec (env : Env) (item : String × Order) (s : Mgr)
    (fills : List Fill) (expired : List Order) (s' : Mgr) (fills' : List Fill)
    (expired' : List Order)
    (h : processOne env item s fills expired = .ok (s', fills', expired')) :
    ∃ (newFills : List Fill) (newly : List Order),
      s'.filled = s.filled ++ newly ∧
      fills' = fills ++ newFills ∧
      List.Forall₂ (fun (f : Fill) (o : Order) => f.side = o.side ∧
        (env.sandboxMode = true → f.filled_qty = o.size)) newFills newly ∧
      (∀ m, ((s'.inventory m).yes = (s.inventory m).yes + buySizeOn newly m) ∧
            ((s'.inventory m).no = (s.inventory m).no + sellSizeOn newly m)) ∧
      s'.cancelled = s.cancelled ∧
      (∀ p ∈ s'.openOrders, p ∈ s.openOrders) ∧
      (∀ wf ∈ s'.ws_fills, wf ∈ s.ws_fills) ∧
      ((∀ wf ∈ s.ws_fills, ∀ k o, pyOrStr wf.order_id wf.orderId = some k →
          (k, o) ∈ s.openOrders → wf.size.getD o.size ≤ o.size) →
        (∀ p ∈ s.openOrders, p.2.filled_qty ≤ p.2.size) →
        item.2.filled_qty ≤ item.2.size →
        ∀ o ∈ newly, o.filled_qty ≤ o.size) := by
  obtain ⟨oid, order⟩ := item
  simp only [processOne] at h
  by_cases hexp : env.now > order.expires_at
  · rw [if_pos hexp] at h
    by_cases hkey : hasKey s.openOrders oid
    · rw [if_pos hkey] at h
      simp only [Except.ok.injEq, Prod.mk.injEq] at h
      obtain ⟨hA, hB, hC⟩ := h
      subst hA hB hC
      exact ⟨[], [], by simp, by simp, .nil,
        by simp [buySizeOn_nil, sellSizeOn_nil], rfl,
        fun p hp => removeKey_subset _ hp, fun wf hwf => hwf,
        fun _ _ _ o ho => by simp at ho⟩
    · rw [if_neg hkey] at h
      simp at h
  · rw [if_neg hexp] at h
    by_cases hsand : env.sandboxMode = true
    · rw [if_pos hsand] at h
      by_cases hrand : env.rand oid <
          calc_fill_prob order (env.book order.token_id) env.market.volume_24h
            (order.size * order.price)
      · rw [if_pos hrand] at h
        by_cases hkey : hasKey s.openOrders oid
        · rw [if_pos hkey] at h
          simp only [Except.ok.injEq, Prod.mk.injEq] at h
          obtain ⟨hA, hB, hC⟩ := h
          subst hA hB hC
          refine ⟨[(⟨oid, order.side, order.size, order.price, calc_rebate s.rebate_rate order.size order.price env.market.fee_bps⟩ : Fill)], [({ order with filled_qty := order.size, filled_price := order.price, status := Status.FILLED } : Order)], by simp, by simp, ?_, ?_, rfl, ?_, fun wf hwf => hwf, ?_⟩
          · exact List.Forall₂.cons ⟨rfl, fun _ => rfl⟩ .nil
          · intro m
            simp only [bumpInv_yes, bumpInv_no, buySizeOn_cons, sellSizeOn_cons,
              buySizeOn_nil, sellSizeOn_nil]
            constructor <;> ring
          · intro p hp
            exact removeKey_subset _ hp
          · intro _ _ hitem o ho
            rcases List.mem_cons.mp ho with he | he
            · subst he
              exact le_refl _
            · simp at he
        · rw [if_neg hkey] at h
          simp at h
      · rw [if_neg hrand] at h
        simp only [Except.ok.injEq, Prod.mk.injEq] at h
        obtain ⟨hA, hB, hC⟩ := h
        subst hA hB hC
        exact ⟨[], [], by simp, by simp, .nil,
          by simp [buySizeOn_nil, sellSizeOn_nil], rfl,
          fun p hp => hp, fun wf hwf => hwf, fun _ _ _ o ho => by simp at ho⟩
    · rw [if_neg hsand] at h
      have hsand' : env.sandboxMode = false := by
        cases hb : env.sandboxMode
        · rfl
        · exact absurd hb hsand
      rcases hws0 : wsLoop env.market.fee_bps s.ws_fills s fills false with ⟨sw, fw, pw⟩
      rw [hws0] at h
      simp only [] at h
      obtain ⟨nfw, nlw, w1, w2, w3, w4, w5, w6, w7, w8, w9, w10, w11⟩ :=
        wsLoop_spec env.market.fee_bps s.ws_fills s fills false sw fw pw hws0
      have w3' : List.Forall₂ (fun (f : Fill) (o : Order) => f.side = o.side ∧
          (env.sandboxMode = true → f.filled_qty = o.size)) nfw nlw :=
        w3.imp (fun _ _ hab => ⟨hab, fun hc => absurd hc (by simp [hsand'])⟩)
      by_cases hproc : pw = true
      · rw [if_pos hproc] at h
        simp only [Except.ok.injEq, Prod.mk.injEq] at h
        obtain ⟨hA, hB, hC⟩ := h
        subst hA hB hC
        exact ⟨nfw, nlw, w1, w2, w3', w4, w5, w6, w7,
          fun hws hop _ => w11 hws hop⟩
      · rw [if_neg hproc] at h
        rcases htr : (env.trades order.token_id).find? (fun t => trade_matches t order)
          with _ | t
        · rw [htr] at h
          simp only [] at h
          simp only [Except.ok.injEq, Prod.mk.injEq] at h
          obtain ⟨hA, hB, hC⟩ := h
          subst hA hB hC
          exact ⟨nfw, nlw, w1, w2, w3', w4, w5, w6, w7,
            fun hws hop _ => w11 hws hop⟩
        · rw [htr] at h
          simp only [] at h
          by_cases hkey : hasKey sw.openOrders oid
          · rw [if_pos hkey] at h
            simp only [Except.ok.injEq, Prod.mk.injEq] at h
            obtain ⟨hA, hB, hC⟩ := h
            subst hA hB hC
            refine ⟨nfw ++ [(⟨oid, order.side, t.size.getD 0, t.price.getD order.price, calc_rebate sw.rebate_rate (t.size.getD 0) (t.price.getD order.price) env.market.fee_bps⟩ : Fill)], nlw ++ [order], ?_, ?_, ?_, ?_, ?_, ?_, ?_, ?_⟩
            · rw [w1]
              simp
            · rw [w2]
              simp
            · exact forall2_append w3'
                (List.Forall₂.cons ⟨rfl, fun hc => absurd hc (by simp [hsand'])⟩ .nil)
            · intro m
              have hy := (w4 m).1
              have hn := (w4 m).2
              simp only [bumpInv_yes, bumpInv_no, buySizeOn_append, sellSizeOn_append,
                buySizeOn_cons, sellSizeOn_cons, buySizeOn_nil, sellSizeOn_nil, hy, hn]
              constructor <;> ring
            · exact w5
            · intro p hp
              exact w6 p (removeKey_subset _ hp)
            · exact w7
            · intro hws hop hitem o ho
              rcases List.mem_append.mp ho with he | he
              · exact w11 hws hop o he
              · rcases List.mem_cons.mp he with he' | he'
                · subst he'
                  exact hitem
                · simp at he'
          · rw [if_neg hkey] at h
            simp at h

/-- The `processOne` characterisation lifted through the outer fold of
`check_fills`. -/
theorem checkFillsAux_spec (env : Env) :
    ∀ (l : List (String × Order)) (s : Mgr) (fills : List Fill)
      (expired : List Order) (s' : Mgr) (fills' : List Fill) (expired' : List Order),
    checkFillsAux env l s fills expired = .ok (s', fills', expired') →
    ∃ (newFills : List Fill) (newly : List Order),
      s'.filled = s.filled ++ newly ∧
      fills' = fills ++ newFills ∧
      List.Forall₂ (fun (f : Fill) (o : Order) => f.side = o.side ∧
        (env.sandboxMode = true → f.filled_qty = o.size)) newFills newly ∧
      (∀ m, ((s'.inventory m).yes = (s.inventory m).yes + buySizeOn newly m) ∧
            ((s'.inventory m).no = (s.inventory m).no + sellSizeOn newly m)) ∧
      s'.cancelled = s.cancelled ∧
      (∀ p ∈ s'.openOrders, p ∈ s.openOrders) ∧
      (∀ wf ∈ s'.ws_fills, wf ∈ s.ws_fills) ∧
      ((∀ wf ∈ s.ws_fills, ∀ k o, pyOrStr wf.order_id wf.orderId = some k →
          (k, o) ∈ s.openOrders → wf.size.getD o.size ≤ o.size) →
        (∀ p ∈ s.openOrders, p.2.filled_qty ≤ p.2.size) →
        (∀ p ∈ l, p.2.filled_qty ≤ p.2.size) →
        ∀ o ∈ newly, o.filled_qty ≤ o.size) := by
  intro l
  induction l with
  | nil =>
    intro s fills expired s' fills' expired' h
    simp only [checkFillsAux, Except.ok.injEq, Prod.mk.injEq] at h
    obtain ⟨hA, hB, _⟩ := h
    subst hA hB
    exact ⟨[], [], by simp, by simp, .nil,
      by simp [buySizeOn_nil, sellSizeOn_nil], rfl, fun p hp => hp,
      fun wf hwf => hwf, fun _ _ _ o ho => by simp at ho⟩
  | cons item rest ih =>
    intro s fills expired s' fills' expired' h
    simp only [checkFillsAux] at h
    rcases hp1 : processOne env item s fills expired with e | ⟨s1, fills1, expired1⟩
    · rw [hp1] at h
      simp at h
    · rw [hp1] at h
      simp only [] at h
      obtain ⟨nf1, nl1, p1, p2, p3, p4, p5, p6, p7, p8⟩ :=
        processOne_spec env item s fills expired s1 fills1 expired1 hp1
      obtain ⟨nf2, nl2, q1, q2, q3, q4, q5, q6, q7, q8⟩ :=
        ih s1 fills1 expired1 s' fills' expired' h
      refine ⟨nf1 ++ nf2, nl1 ++ nl2, ?_, ?_, forall2_append p3 q3, ?_, ?_, ?_, ?_, ?_⟩
      · rw [q1, p1, List.append_assoc]
      · rw [q2, p2, List.append_assoc]
      · intro m
        have := q4 m
        have := p4 m
        simp only [buySizeOn_append, sellSizeOn_append]
        constructor
        · rw [(q4 m).1, (p4 m).1]
          ring
        · rw [(q4 m).2, (p4 m).2]
          ring
      · rw [q5, p5]
      · intro p hp
        exact p6 p (q6 p hp)
      · intro wf hwf
        exact p7 wf (q7 wf hwf)
      · intro hws hop hsnap o ho
        rcases List.mem_append.mp ho with he | he
        · exact p8 hws hop (hsnap item (List.mem_cons_self _ _)) o he
        · refine q8 ?_ ?_ ?_ o he
          · intro wf hwf k o0 hk hmem
            exact hws wf (p7 wf hwf) k o0 hk (p6 _ hmem)
          · intro p hp
            exact hop p (p6 p hp)
          · intro p hp
            exact hsnap p (List.mem_cons_of_mem _ hp)

end RB

/-- Claim C4 as amended: when `check_fills` returns normally, the filled
history extends by one order per recorded fill with matching side, and the
inventory of each market changes by exactly the sum of the **orders' full
sizes** — YES side for BUY orders, NO side for SELL orders — of the newly
filled orders on that market and by nothing else. In the sandbox path the
recorded fill quantity equals the order's full size, so there the increment
also equals the reported quantity. -/
theorem claim4_inventory_increment (env : RB.Env) (s s' : RB.Mgr)
    (fills : List RB.Fill) (expired : List RB.Order)
    (h : RB.check_fills env s = .ok (s', fills, expired)) :
    ∃ newly : List RB.Order,
      s'.filled = s.filled ++ newly ∧
      List.Forall₂ (fun (f : RB.Fill) (o : RB.Order) => f.side = o.side ∧
        (env.sandboxMode = true → f.filled_qty = o.size)) fills newly ∧
      (∀ m, ((s'.inventory m).yes = (s.inventory m).yes + RB.buySizeOn newly m) ∧
            ((s'.inventory m).no = (s.inventory m).no + RB.sellSizeOn newly m)) := by
  obtain ⟨nf, nl, h1, h2, h3, h4, _⟩ :=
    RB.checkFillsAux_spec env s.openOrders s [] [] s' fills expired h
  refine ⟨nl, h1, ?_, h4⟩
  rw [h2]
  simpa using h3

/-- Concrete order, market, environment and manager state driving the
websocket fill path of `check_fills` with a partial fill report. -/
def c4Order : RB.Order :=
  { order_id := "o1", market_id := "m", token_id := "t", side := .BUY,
    price := 1/2, size := 5, status := .OPEN, created_at := 0,
    expires_at := 100, nonce := 0 }

def c4Mkt : RB.Market :=
  { condition_id := "m", question := "q", tokens := ["t", "u"],
    fee_bps := 100, volume_24h := 1000 }

def c4Env : RB.Env :=
  { now := 1, market := c4Mkt, sandboxMode := false,
    book := fun _ => { bids := [], asks := [] },
    rand := fun _ => 1, trades := fun _ => [] }

def c4Ws : RB.WsFill :=
  { order_id := some "o1", orderId := none, size := some 2, price := some (1/2) }

def c4State : RB.Mgr :=
  { rebate_rate := 1/5, openOrders := [("o1", c4Order)], ws_fills := [c4Ws] }

/-- Claim C4 counterexample: a websocket fill message reporting a partial
fill of 2 on an open BUY order of size 5 produces a fill record with
`filled_qty = 2`, yet the YES inventory of the order's market increases by
the **full order size** 5 (`run_bot.py` line 769 adds `order.size`, not the
reported quantity), refuting "increases ... by exactly the filled quantity
reported for that fill". -/
theorem claim4_counterexample :
    ((RB.check_fills c4Env c4State).toOption.map
      (fun r => (((r.1).inventory "m").yes, ((r.1).inventory "m").no,
        (r.2.1).map RB.Fill.filled_qty))) = some (5, 0, [2]) ∧
    (5 : ℚ) ≠ 2 := by
  constructor
  · simp [RB.check_fills, RB.checkFillsAux, RB.processOne, RB.wsLoop,
      RB.pyOrStr, RB.findOrd, RB.removeKey, RB.calc_rebate,
      RB.hasKey, c4Env, c4State, c4Order, c4Mkt, c4Ws,
      RB.calc_fill_prob, RB.trade_matches]
    refine ⟨_, _, ⟨_, rfl⟩, by simp [RB.bumpInv], by simp [RB.bumpInv], rfl⟩
  · norm_num

/-- Market for the `claim4_inventory_increment` witness. -/
def c4wMkt : RB.Market :=
  { condition_id := "m", question := "q", tokens := ["t", "u"],
    fee_bps := 100, volume_24h := 10000 }

/-- Sandbox environment for the `claim4_inventory_increment` witness: the
probability oracle always fills. -/
def c4wEnv : RB.Env :=
  { now := 1, market := c4wMkt, sandboxMode := true,
    book := fun _ => { bids := [], asks := [] },
    rand := fun _ => 0, trades := fun _ => [] }

def c4wState : RB.Mgr :=
  { rebate_rate := 1/5, openOrders := [("o1", c4Order)] }

/-- Witness for `claim4_inventory_increment`: a sandbox fill of the size-5
BUY order adds exactly 5 to the YES inventory of market `"m"`, nothing to
NO, and records one fill of quantity 5. -/
theorem claim4_witness :
    ((RB.check_fills c4wEnv c4wState).toOption.map
      (fun r => (((r.1).inventory "m").yes, ((r.1).inventory "m").no,
        (r.2.1).map RB.Fill.filled_qty))) = some (5, 0, [5]) := by
  rcases hE : RB.check_fills c4wEnv c4wState with e | ⟨S, F, E⟩
  · exfalso
    norm_num [RB.check_fills, RB.checkFillsAux, RB.processOne, RB.wsLoop,
      RB.pyOrStr, RB.findOrd, RB.removeKey, RB.calc_rebate,
      RB.hasKey, c4wEnv, c4wMkt, c4wState, c4Order, RB.calc_fill_prob,
      RB.trade_matches] at hE
    exact Except.noConfusion hE
  · obtain ⟨newly, hh1, hh2, hh3⟩ :=
      claim4_inventory_increment c4wEnv c4wState S F E hE
    norm_num [RB.check_fills, RB.checkFillsAux, RB.processOne, RB.wsLoop,
      RB.pyOrStr, RB.findOrd, RB.removeKey, RB.calc_rebate,
      RB.hasKey, c4wEnv, c4wMkt, c4wState, c4Order, RB.calc_fill_prob,
      RB.trade_matches] at hE
    obtain ⟨hS, hF, hEE⟩ := hE
    subst hS hF
    simp only [Except.toOption, Option.map]
    simp [RB.bumpInv]

namespace RB

/-- When every snapshot order has expired, the outer fold only drains the
open set and collects the expired orders: no fill, no inventory change, no
counter change. -/
theorem checkFillsAux_all_expired (env : Env) :
    ∀ (l : List (String × Order)) (s : Mgr) (fills : List Fill) (expired : List Order),
    s.openOrders = l → (∀ p ∈ l, env.now > p.2.expires_at) →
    checkFillsAux env l s fills expired =
      .ok ({ s with openOrders := [] }, fills,
           expired ++ l.map (fun p => { p.2 with status := Status.EXPIRED })) := by
  intro l
  induction l with
  | nil =>
    intro s fills expired hs _
    have heq : { s with openOrders := ([] : List (String × Order)) } = s := by
      rw [← hs]
    rw [heq]
    simp [checkFillsAux]
  | cons item rest ih =>
    obtain ⟨k, o⟩ := item
    intro s fills expired hs hexp
    have hexp1 : env.now > o.expires_at := hexp (k, o) (List.mem_cons_self _ _)
    have hkey : hasKey s.openOrders k = true := by
      rw [hs]
      simp [hasKey, findOrd]
    have hrem : removeKey s.openOrders k = rest := by
      rw [hs]
      simp [removeKey]
    have hp : processOne env (k, o) s fills expired =
        .ok ({ s with openOrders := rest }, fills,
             expired ++ [{ o with status := Status.EXPIRED }]) := by
      simp only [processOne, if_pos hexp1, hkey, if_true, hrem]
    simp only [checkFillsAux]
    rw [hp]
    simp only []
    have h2 := ih { s with openOrders := rest } fills
      (expired ++ [{ o with status := Status.EXPIRED }]) rfl
      (fun p hp' => hexp p (List.mem_cons_of_mem _ hp'))
    rw [h2]
    simp

end RB

/-- Claim C10: when `check_fills` expires an open order (`now` strictly past
its `expires_at`), the order's status is set to `EXPIRED` and it is removed
from the open set, but it is appended to neither the filled nor the
cancelled history, no fill record (hence no rebate) is produced, and the
inventory and the placed/filled/cancelled counters are untouched: one
expiring iteration changes nothing but the open set, and a call in which
every open order has expired returns the state unchanged except for the
emptied open set, with an empty fill list. -/
theorem claim10_expiry_frame :
    (∀ (env : RB.Env) (k : String) (o : RB.Order) (s : RB.Mgr)
      (fills : List RB.Fill) (expired : List RB.Order),
      env.now > o.expires_at → RB.hasKey s.openOrders k = true →
      RB.processOne env (k, o) s fills expired =
        .ok ({ s with openOrders := RB.removeKey s.openOrders k }, fills,
             expired ++ [{ o with status := RB.Status.EXPIRED }])) ∧
    (∀ (env : RB.Env) (s : RB.Mgr),
      (∀ p ∈ s.openOrders, env.now > p.2.expires_at) →
      RB.check_fills env s =
        .ok ({ s with openOrders := [] }, [],
             s.openOrders.map (fun p => { p.2 with status := RB.Status.EXPIRED }))) := by
  constructor
  · intro env k o s fills expired hexp hkey
    simp only [RB.processOne, if_pos hexp, hkey, if_true]
  · intro env s hexp
    have h := RB.checkFillsAux_all_expired env s.openOrders s [] [] rfl hexp
    rw [RB.check_fills, h]
    simp

/-- Order, market, environment and state for the `claim10_expiry_frame`
witness: a single open order whose expiry is in the past. -/
def c10Order : RB.Order :=
  { order_id := "a", market_id := "m", token_id := "t", side := .BUY,
    price := 1/2, size := 5, status := .OPEN, created_at := 0,
    expires_at := 5, nonce := 0 }

def c10Mkt : RB.Market :=
  { condition_id := "m", question := "q", tokens := ["t", "u"],
    fee_bps := 100, volume_24h := 1000 }

def c10Env : RB.Env :=
  { now := 10, market := c10Mkt, sandboxMode := true,
    book := fun _ => { bids := [], asks := [] },
    rand := fun _ => 1, trades := fun _ => [] }

def c10State : RB.Mgr :=
  { rebate_rate := 1/5, openOrders := [("a", c10Order)] }

/-- Witness for `claim10_expiry_frame`: the expired order is dropped from
the open set with status `EXPIRED`, and nothing else changes. -/
theorem claim10_witness :
    RB.check_fills c10Env c10State =
      .ok ({ c10State with openOrders := [] }, [],
           [{ c10Order with status := RB.Status.EXPIRED }]) := by
  have h := claim10_expiry_frame.2 c10Env c10State (by
    intro p hp
    simp only [c10State, List.mem_singleton] at hp
    subst hp
    norm_num [c10Order, c10Env])
  rw [h]
  simp [c10State]

namespace RB

/-- The order-state invariant of claim C3: every open order has status
`OPEN` with `filled_qty ≤ size`, every filled-history order has
`filled_qty ≤ size`, and every cancelled-history order has status
`CANCELLED` with `filled_qty ≤ size`. -/
def OrderInvariant (s : Mgr) : Prop :=
  (∀ p ∈ s.openOrders, p.2.status = Status.OPEN ∧ p.2.filled_qty ≤ p.2.size) ∧
  (∀ o ∈ s.filled, o.filled_qty ≤ o.size) ∧
  (∀ o ∈ s.cancelled, o.status = Status.CANCELLED ∧ o.filled_qty ≤ o.size)

theorem cancel_order_spec (oid : String) (sm : Bool) (gp : ℚ) (resp : Option Bool)
    (s : Mgr) :
    (∃ l, (cancel_order oid sm gp resp s).2.cancelled = s.cancelled ++ l) ∧
    (cancel_order oid sm gp resp s).2.filled = s.filled ∧
    (OrderInvariant s → OrderInvariant (cancel_order oid sm gp resp s).2) := by
  unfold cancel_order
  cases ho : findOrd s.openOrders oid with
  | none => exact ⟨⟨[], by simp⟩, rfl, fun h => h⟩
  | some o =>
    cases resp with
    | none => exact ⟨⟨[], by simp⟩, rfl, fun h => h⟩
    | some b =>
      cases b with
      | false => exact ⟨⟨[], by simp⟩, rfl, fun h => h⟩
      | true =>
        refine ⟨⟨[{ o with status := Status.CANCELLED }], rfl⟩, rfl, ?_⟩
        intro hinv
        refine ⟨fun p hp => hinv.1 p (removeKey_subset _ hp), hinv.2.1, ?_⟩
        intro o' ho'
        rcases List.mem_append.mp ho' with he | he
        · exact hinv.2.2 o' he
        · rcases List.mem_singleton.mp he with rfl
          exact ⟨rfl, (hinv.1 (oid, o) (findOrd_mem ho)).2⟩

theorem cancel_stale_aux_spec (maxAge now : ℚ) (sm : Bool) (gp : ℚ)
    (resps : String → Option Bool) :
    ∀ (ids : List String) (count : ℕ) (s : Mgr),
    (∃ l, (cancel_stale_aux maxAge now sm gp resps ids (count, s)).2.cancelled =
      s.cancelled ++ l) ∧
    (cancel_stale_aux maxAge now sm gp resps ids (count, s)).2.filled = s.filled ∧
    (OrderInvariant s →
      OrderInvariant (cancel_stale_aux maxAge now sm gp resps ids (count, s)).2) := by
  intro ids
  induction ids with
  | nil =>
    intro count s
    exact ⟨⟨[], by simp [cancel_stale_aux]⟩, rfl, fun h => h⟩
  | cons oid rest ih =>
    intro count s
    simp only [cancel_stale_aux]
    cases ho : findOrd s.openOrders oid with
    | none => exact ih count s
    | some o =>
      simp only []
      by_cases hage : now - o.created_at > maxAge
      · rw [if_pos hage]
        obtain ⟨⟨l1, hc1⟩, hf1, hi1⟩ := cancel_order_spec oid sm gp (resps oid) s
        obtain ⟨⟨l2, hc2⟩, hf2, hi2⟩ :=
          ih (if (cancel_order oid sm gp (resps oid) s).1 = true then count + 1 else count)
            (cancel_order oid sm gp (resps oid) s).2
        refine ⟨⟨l1 ++ l2, ?_⟩, ?_, ?_⟩
        · rw [hc2, hc1, List.append_assoc]
        · rw [hf2, hf1]
        · intro hinv
          exact hi2 (hi1 hinv)
      · rw [if_neg hage]
        exact ih count s

theorem submit_order_spec (mkt : Market) (side : Side) (price size expiry now : ℚ)
    (nonce : ℕ) (sm : Bool) (gp : ℚ) (resp : Option SubmitResp) (s : Mgr) :
    (submit_order mkt side price size expiry now nonce sm gp resp s).2.filled =
      s.filled ∧
    (submit_order mkt side price size expiry now nonce sm gp resp s).2.cancelled =
      s.cancelled ∧
    (0 ≤ size → OrderInvariant s →
      OrderInvariant (submit_order mkt side price size expiry now nonce sm gp resp s).2) := by
  unfold submit_order
  cases resp with
  | none => exact ⟨rfl, rfl, fun _ h => h⟩
  | some r =>
    simp only []
    by_cases hsucc : r.success = true
    · rw [if_pos hsucc]
      refine ⟨rfl, rfl, ?_⟩
      intro hsize hinv
      refine ⟨?_, hinv.2.1, hinv.2.2⟩
      intro p hp
      rcases insertKey_mem p hp with he | he
      · subst he
        exact ⟨rfl, hsize⟩
      · exact hinv.1 p he
    · rw [if_neg hsucc]
      exact ⟨rfl, rfl, fun _ h => h⟩

/-- `check_fills` preserves the order-state invariant under bounded
websocket reports, extends the filled history, and leaves the cancelled
history untouched. -/
theorem check_fills_invariant (env : Env) (s s' : Mgr) (fills : List Fill)
    (expired : List Order)
    (h : check_fills env s = .ok (s', fills, expired))
    (hws : ∀ wf ∈ s.ws_fills, ∀ k o, pyOrStr wf.order_id wf.orderId = some k →
      (k, o) ∈ s.openOrders → wf.size.getD o.size ≤ o.size)
    (hinv : OrderInvariant s) :
    OrderInvariant s' ∧ (∃ l, s'.filled = s.filled ++ l) ∧
    s'.cancelled = s.cancelled := by
  obtain ⟨nf, nl, h1, h2, h3, h4, h5, h6, h7, h8⟩ :=
    checkFillsAux_spec env s.openOrders s [] [] s' fills expired h
  have hopen : ∀ p ∈ s.openOrders, p.2.filled_qty ≤ p.2.size :=
    fun p hp => (hinv.1 p hp).2
  have hnewly : ∀ o ∈ nl, o.filled_qty ≤ o.size := h8 hws hopen hopen
  refine ⟨⟨fun p hp => hinv.1 p (h6 p hp), ?_, ?_⟩, ⟨nl, h1⟩, h5⟩
  · intro o ho
    rw [h1] at ho
    rcases List.mem_append.mp ho with he | he
    · exact hinv.2.1 o he
    · exact hnewly o he
  · rw [h5]
    exact hinv.2.2

/-- Any `OrderManager` step preserves the order-state invariant and only
appends to the two terminal history lists. -/
theorem step_spec {s s' : Mgr} (hstep : Step s s') :
    (OrderInvariant s → OrderInvariant s') ∧
    (∃ l, s'.filled = s.filled ++ l) ∧ (∃ l, s'.cancelled = s.cancelled ++ l) := by
  cases hstep with
  | submit mkt side price size expiry now nonce sm gp resp hsize =>
    obtain ⟨h1, h2, h3⟩ :=
      submit_order_spec mkt side price size expiry now nonce sm gp resp _
    exact ⟨h3 (le_of_lt hsize), ⟨[], by simp [h1]⟩, ⟨[], by simp [h2]⟩⟩
  | cancel oid sm gp resp =>
    obtain ⟨h1, h2, h3⟩ := cancel_order_spec oid sm gp resp _
    exact ⟨h3, ⟨[], by simp [h2]⟩, h1⟩
  | cancelStale maxAge now sm gp resps =>
    obtain ⟨h1, h2, h3⟩ := cancel_stale_aux_spec maxAge now sm gp resps _ 0 _
    exact ⟨h3, ⟨[], by simp [cancel_stale, h2]⟩, by simpa [cancel_stale] using h1⟩
  | wsDeliver wf =>
    exact ⟨fun h => h, ⟨[], by simp⟩, ⟨[], by simp⟩⟩
  | checkFills env hws h =>
    constructor
    · intro hinv
      exact (check_fills_invariant env _ _ _ _ h hws hinv).1
    · obtain ⟨nf, nl, h1, _, _, _, h5, _⟩ :=
        checkFillsAux_spec env _ _ [] [] _ _ _ h
      exact ⟨⟨nl, h1⟩, ⟨[], by simp [h5]⟩⟩

/-- Every reachable `OrderManager` state satisfies the order invariant. -/
theorem reachable_invariant {rr : ℚ} {s : Mgr} (h : Reachable rr s) :
    OrderInvariant s := by
  induction h with
  | base =>
    refine ⟨?_, ?_, ?_⟩ <;> intro p hp <;> simp [Mgr.init] at hp
  | step hr hstep ih => exact (step_spec hstep).1 ih

/-- The `OrderManager` operations with NO well-behavedness assumptions on
the venue: submissions of arbitrary (even non-positive) size and websocket
fill reports of arbitrary size are admitted. A `check_fills` call still
contributes a successor state only when it returns instead of raising
`KeyError` (a raising call has no resulting state in this embedding). -/
inductive StepAny : Mgr → Mgr → Prop where
  | submit (mkt : Market) (side : Side) (price size expiry_secs now : ℚ) (nonce : ℕ)
      (sandboxMode : Bool) (gas_price : ℚ) (resp : Option SubmitResp) {s : Mgr} :
      StepAny s (submit_order mkt side price size expiry_secs now nonce sandboxMode
        gas_price resp s).2
  | cancel (oid : String) (sandboxMode : Bool) (gas_price : ℚ) (resp : Option Bool)
      {s : Mgr} : StepAny s (cancel_order oid sandboxMode gas_price resp s).2
  | cancelStale (maxAge now : ℚ) (sandboxMode : Bool) (gas_price : ℚ)
      (resps : String → Option Bool) {s : Mgr} :
      StepAny s (cancel_stale maxAge now sandboxMode gas_price resps s).2
  | wsDeliver (wf : WsFill) {s : Mgr} :
      StepAny s { s with ws_fills := s.ws_fills ++ [wf] }
  | checkFills (env : Env) {s s' : Mgr} {fills : List Fill} {expired : List Order} :
      check_fills env s = .ok (s', fills, expired) →
      StepAny s s'

/-- Manager states reachable from `__init__` under ARBITRARY venue input. -/
inductive ReachableAny (rebate_rate : ℚ) : Mgr → Prop where
  | base : ReachableAny rebate_rate (Mgr.init rebate_rate)
  | step {s s' : Mgr} : ReachableAny rebate_rate s → StepAny s s' →
      ReachableAny rebate_rate s'

/-- Every bounded-venue step is in particular an arbitrary-venue step. -/
theorem Step.toAny {s s' : Mgr} (h : Step s s') : StepAny s s' := by
  cases h with
  | submit mkt side price size expiry now nonce sm gp resp hsize =>
    exact StepAny.submit mkt side price size expiry now nonce sm gp resp
  | cancel oid sm gp resp => exact StepAny.cancel oid sm gp resp
  | cancelStale maxAge now sm gp resps => exact StepAny.cancelStale maxAge now sm gp resps
  | wsDeliver wf => exact StepAny.wsDeliver wf
  | checkFills env hws h => exact StepAny.checkFills env h

/-- The status-only invariant of claim C3 that needs no assumption on the
venue: open orders are `OPEN` and cancelled-history orders are `CANCELLED`. -/
def StatusInvariant (s : Mgr) : Prop :=
  (∀ p ∈ s.openOrders, p.2.status = Status.OPEN) ∧
  (∀ o ∈ s.cancelled, o.status = Status.CANCELLED)

theorem cancel_order_status (oid : String) (sm : Bool) (gp : ℚ) (resp : Option Bool)
    (s : Mgr) (hinv : StatusInvariant s) :
    StatusInvariant (cancel_order oid sm gp resp s).2 := by
  unfold cancel_order
  cases ho : findOrd s.openOrders oid with
  | none => exact hinv
  | some o =>
    cases resp with
    | none => exact hinv
    | some b =>
      cases b with
      | false => exact hinv
      | true =>
        refine ⟨fun p hp => hinv.1 p (removeKey_subset _ hp), ?_⟩
        intro o' ho'
        rcases List.mem_append.mp ho' with he | he
        · exact hinv.2 o' he
        · rcases List.mem_singleton.mp he with rfl
          rfl

theorem cancel_stale_aux_status (maxAge now : ℚ) (sm : Bool) (gp : ℚ)
    (resps : String → Option Bool) :
    ∀ (ids : List String) (count : ℕ) (s : Mgr), StatusInvariant s →
    StatusInvariant (cancel_stale_aux maxAge now sm gp resps ids (count, s)).2 := by
  intro ids
  induction ids with
  | nil => exact fun count s h => h
  | cons oid rest ih =>
    intro count s hinv
    simp only [cancel_stale_aux]
    cases ho : findOrd s.openOrders oid with
    | none => exact ih count s hinv
    | some o =>
      simp only []
      by_cases hage : now - o.created_at > maxAge
      · rw [if_pos hage]
        exact ih _ _ (cancel_order_status oid sm gp (resps oid) s hinv)
      · rw [if_neg hage]
        exact ih count s hinv

theorem submit_order_status (mkt : Market) (side : Side)
    (price size expiry now : ℚ) (nonce : ℕ) (sm : Bool) (gp : ℚ)
    (resp : Option SubmitResp) (s : Mgr) (hinv : StatusInvariant s) :
    StatusInvariant (submit_order mkt side price size expiry now nonce sm gp resp s).2 := by
  unfold submit_order
  cases resp with
  | none => exact hinv
  | some r =>
    simp only []
    by_cases hsucc : r.success = true
    · rw [if_pos hsucc]
      refine ⟨?_, hinv.2⟩
      intro p hp
      rcases insertKey_mem p hp with he | he
      · subst he
        rfl
      · exact hinv.1 p he
    · rw [if_neg hsucc]
      exact hinv

/-- Any step — with no assumption whatsoever on the venue's data — keeps
open orders `OPEN` and cancelled orders `CANCELLED`, and only appends to
the filled and cancelled histories. -/
theorem step_any_spec {s s' : Mgr} (hstep : StepAny s s') :
    (StatusInvariant s → StatusInvariant s') ∧
    (∃ l, s'.filled = s.filled ++ l) ∧ (∃ l, s'.cancelled = s.cancelled ++ l) := by
  cases hstep with
  | submit mkt side price size expiry now nonce sm gp resp =>
    obtain ⟨h1, h2, _⟩ := submit_order_spec mkt side price size expiry now nonce sm gp resp s
    exact ⟨submit_order_status mkt side price size expiry now nonce sm gp resp s,
      ⟨[], by simp [h1]⟩, ⟨[], by simp [h2]⟩⟩
  | cancel oid sm gp resp =>
    obtain ⟨h1, h2, _⟩ := cancel_order_spec oid sm gp resp s
    exact ⟨cancel_order_status oid sm gp resp s, ⟨[], by simp [h2]⟩, h1⟩
  | cancelStale maxAge now sm gp resps =>
    obtain ⟨h1, h2, _⟩ :=
      cancel_stale_aux_spec maxAge now sm gp resps (s.openOrders.map Prod.fst) 0 s
    exact ⟨cancel_stale_aux_status maxAge now sm gp resps (s.openOrders.map Prod.fst) 0 s,
      ⟨[], by simp [cancel_stale, h2]⟩, by simpa [cancel_stale] using h1⟩
  | wsDeliver wf =>
    exact ⟨fun h => h, ⟨[], by simp⟩, ⟨[], by simp⟩⟩
  | checkFills env h =>
    obtain ⟨nf, nl, h1, _, _, _, h5, h6, _⟩ :=
      checkFillsAux_spec env _ _ [] [] _ _ _ h
    exact ⟨fun hinv => ⟨fun p hp => hinv.1 p (h6 p hp), by rw [h5]; exact hinv.2⟩,
      ⟨nl, h1⟩, ⟨[], by simp [h5]⟩⟩

/-- Under arbitrary venue input, every reachable state keeps open orders
`OPEN` and cancelled orders `CANCELLED`. -/
theorem reachable_any_status {rr : ℚ} {s : Mgr} (h : ReachableAny rr s) :
    StatusInvariant s := by
  induction h with
  | base =>
    refine ⟨?_, ?_⟩ <;> intro p hp <;> simp [Mgr.init] at hp
  | step hr hstep ih => exact (step_any_spec hstep).1 ih

end RB

namespace Exec

theorem removeKeyE_subset {l : List (String × Order)} {k : String} :
    ∀ x ∈ removeKeyE l k, x ∈ l := by
  induction l with
  | nil => simp [removeKeyE]
  | cons p t ih =>
    obtain ⟨k', o'⟩ := p
    intro x hx
    by_cases hk : k' = k
    · simp only [removeKeyE, if_pos hk] at hx
      exact List.mem_cons_of_mem _ hx
    · simp only [removeKeyE, if_neg hk] at hx
      rcases List.mem_cons.mp hx with h | h
      · exact h ▸ List.mem_cons_self _ _
      · exact List.mem_cons_of_mem _ (ih x h)

theorem insertKeyE_mem {l : List (String × Order)} {k : String} {o : Order} :
    ∀ x ∈ insertKeyE l k o, x = (k, o) ∨ x ∈ l := by
  induction l with
  | nil => simp [insertKeyE]
  | cons p t ih =>
    obtain ⟨k', o'⟩ := p
    intro x hx
    by_cases hk : k' = k
    · simp only [insertKeyE, if_pos hk] at hx
      rcases List.mem_cons.mp hx with h | h
      · exact Or.inl h
      · exact Or.inr (List.mem_cons_of_mem _ h)
    · simp only [insertKeyE, if_neg hk] at hx
      rcases List.mem_cons.mp hx with h | h
      · exact Or.inr (h ▸ List.mem_cons_self _ _)
      · rcases ih x h with h' | h'
        · exact Or.inl h'
        · exact Or.inr (List.mem_cons_of_mem _ h')

/-- One `update_order_status` iteration preserves `filled_size ≤ size`
on open orders and history, provided the report for this order is bounded
by its size. -/
theorem updateOne_invariant (now : ℚ) (report : String → Option ℚ)
    (p : String × Order) (st : ExecState)
    (hrep : ∀ v, report p.1 = some v → v ≤ p.2.size)
    (hopen : ∀ q ∈ st.openOrders, q.2.filled_size ≤ q.2.size)
    (hhist : ∀ o ∈ st.history, o.filled_size ≤ o.size) :
    (∀ q ∈ (updateOne now report p st).openOrders, q.2.filled_size ≤ q.2.size) ∧
    (∀ o ∈ (updateOne now report p st).history, o.filled_size ≤ o.size) := by
  unfold updateOne
  cases hr : report p.1 with
  | none => exact ⟨hopen, hhist⟩
  | some v =>
    simp only []
    have hv : v ≤ p.2.size := hrep v hr
    by_cases hgt : v > p.2.filled_size
    · rw [if_pos hgt]
      by_cases hfull : v ≥ p.2.size
      · rw [if_pos (by simpa using hfull)]
        refine ⟨fun q hq => hopen q (removeKeyE_subset _ hq), ?_⟩
        intro o ho
        rcases List.mem_append.mp ho with he | he
        · exact hhist o he
        · rcases List.mem_singleton.mp he with rfl
          simpa using hv
      · rw [if_neg (by simpa using hfull)]
        refine ⟨?_, hhist⟩
        intro q hq
        rcases insertKeyE_mem q hq with he | he
        · subst he
          simpa using hv
        · exact hopen q he
    · rw [if_neg hgt]
      exact ⟨hopen, hhist⟩

/-- The fold inside `update_order_status` preserves the bound, given
bounded reports for every snapshot item. -/
theorem update_fold_invariant (now : ℚ) (report : String → Option ℚ) :
    ∀ (l : List (String × Order)) (acc : ExecState),
    (∀ p ∈ l, ∀ v, report p.1 = some v → v ≤ p.2.size) →
    (∀ q ∈ acc.openOrders, q.2.filled_size ≤ q.2.size) →
    (∀ o ∈ acc.history, o.filled_size ≤ o.size) →
    (∀ q ∈ (l.foldl (fun a p => updateOne now report p a) acc).openOrders,
      q.2.filled_size ≤ q.2.size) ∧
    (∀ o ∈ (l.foldl (fun a p => updateOne now report p a) acc).history,
      o.filled_size ≤ o.size) := by
  intro l
  induction l with
  | nil => exact fun acc _ hopen hhist => ⟨hopen, hhist⟩
  | cons p rest ih =>
    intro acc hrep hopen hhist
    simp only [List.foldl_cons]
    obtain ⟨h1, h2⟩ := updateOne_invariant now report p acc
      (hrep p (List.mem_cons_self _ _)) hopen hhist
    exact ih (updateOne now report p acc)
      (fun q hq => hrep q (List.mem_cons_of_mem _ hq)) h1 h2

end Exec

/-- Claim C3 as amended. Unconditionally — under ARBITRARY venue input
(`RB.StepAny` / `RB.ReachableAny` place no bound on reported sizes and none
on submitted sizes): every `run_bot.py` OrderManager operation only appends
to the filled and cancelled history lists (records already there persist
unchanged, so a terminal-status record is never mutated, in particular
never set back to `OPEN`), and on every reachable state every open order
has status `OPEN` (so no terminal-status record is ever in the open set)
and every cancelled-history order has status `CANCELLED`; bounded-venue
runs are a special case. Additionally, provided every externally reported
fill size is bounded by the matched order's size and submitted sizes are
positive, every reachable state also satisfies `filled_qty ≤ size` for all
stored orders; and in `OrderExecutor.update_order_status`, reports bounded
by the order size preserve `filled_size ≤ size` on open orders and history.
Without the boundedness assumption the size bound is refutable (see the
counterexample: an oversized report is stored unclamped). -/
theorem claim3_order_state_machine :
    (∀ (s s' : RB.Mgr), RB.StepAny s s' →
      (∃ l, s'.filled = s.filled ++ l) ∧ (∃ l, s'.cancelled = s.cancelled ++ l)) ∧
    (∀ (rr : ℚ) (s : RB.Mgr), RB.ReachableAny rr s →
      (∀ p ∈ s.openOrders, p.2.status = RB.Status.OPEN) ∧
      (∀ o ∈ s.cancelled, o.status = RB.Status.CANCELLED)) ∧
    (∀ (s s' : RB.Mgr), RB.Step s s' → RB.StepAny s s') ∧
    (∀ (rr : ℚ) (s : RB.Mgr), RB.Reachable rr s →
      (∀ p ∈ s.openOrders, p.2.status = RB.Status.OPEN ∧ p.2.filled_qty ≤ p.2.size) ∧
      (∀ o ∈ s.filled, o.filled_qty ≤ o.size) ∧
      (∀ o ∈ s.cancelled, o.status = RB.Status.CANCELLED ∧ o.filled_qty ≤ o.size)) ∧
    (∀ (now : ℚ) (report : String → Option ℚ) (st : Exec.ExecState),
      (∀ p ∈ st.openOrders, ∀ v, report p.1 = some v → v ≤ p.2.size) →
      (∀ q ∈ st.openOrders, q.2.filled_size ≤ q.2.size) →
      (∀ o ∈ st.history, o.filled_size ≤ o.size) →
      (∀ q ∈ (Exec.update_order_status now report st).openOrders,
        q.2.filled_size ≤ q.2.size) ∧
      (∀ o ∈ (Exec.update_order_status now report st).history,
        o.filled_size ≤ o.size)) := by
  refine ⟨?_, ?_, ?_, ?_, ?_⟩
  · intro s s' hstep
    exact (RB.step_any_spec hstep).2
  · intro rr s h
    exact RB.reachable_any_status h
  · intro s s' hstep
    exact hstep.toAny
  · intro rr s h
    exact RB.reachable_invariant h
  · intro now report st hrep hopen hhist
    exact Exec.update_fold_invariant now report st.openOrders st hrep hopen hhist

/-- Executor order, state and report for the claim C3 counterexample. -/
def c3Order : Exec.Order :=
  { order_id := "a", token_id := "t", side := "BUY", price := 1/2, size := 5 }

def c3St : Exec.ExecState := { openOrders := [("a", c3Order)], history := [] }

def c3Rep : String → Option ℚ := fun k => if k = "a" then some 7 else none

/-- Claim C3 counterexample: an external status report of `filled_size = 7`
for an open order of size 5 is stored unclamped by `update_order_status`;
the order ends in the history with `filled_size = 7 > 5 = size` — an
observable state violating `filled_size ≤ size` (the spec's §7(e) demands
such a fill be surfaced as a fatal defect, not recorded). -/
theorem claim3_counterexample :
    (Exec.update_order_status 1 c3Rep c3St).history.map
      (fun o => (o.filled_size, o.size, o.status)) = [(7, 5, "filled")] ∧
    ¬ ((7 : ℚ) ≤ 5) := by
  constructor
  · norm_num [Exec.update_order_status, Exec.updateOne, c3Rep, c3St, c3Order,
      Exec.removeKeyE, Exec.insertKeyE]
  · norm_num

/-- Executor state and bounded report for the `claim3_order_state_machine`
witness. -/
def c3wRep : String → Option ℚ := fun k => if k = "a" then some 3 else none

/-- Market for the `claim3_order_state_machine` witness. -/
def c3wMkt : RB.Market :=
  { condition_id := "m3", question := "q", tokens := ["t3", "u3"],
    fee_bps := 100, volume_24h := 0 }

/-- A manager state reached under ARBITRARY venue input: a successful
submission of (nonsensical) size −1, which `RB.StepAny` admits. -/
def c3wMgr : RB.Mgr :=
  (RB.submit_order c3wMkt RB.Side.BUY (1/2) (-1) 60 0 0 true 0
    (some { success := true, orderID := some "w1" }) (RB.Mgr.init (1/5))).2

/-- Witness for `claim3_order_state_machine`: a bounded partial-fill report
of 3 on the size-5 executor order leaves it open with `filled_size = 3 ≤ 5`;
and even after an arbitrary-venue submission of size −1, every open order of
the reached manager state has status `OPEN` (the unconditional clause). -/
theorem claim3_witness :
    (Exec.update_order_status 1 c3wRep c3St).openOrders.map
      (fun p => (p.2.filled_size, p.2.size, p.2.status)) = [(3, 5, "open")] ∧
    (Exec.update_order_status 1 c3wRep c3St).history = [] ∧
    ((3 : ℚ) ≤ 5) ∧
    (c3wMgr.openOrders.all (fun p => p.2.status == RB.Status.OPEN) = true) ∧
    (RB.Mgr.init (1/5)).filled = [] := by
  have h := claim3_order_state_machine.2.2.2.2 1 c3wRep c3St
    (by
      intro p hp v hv
      simp only [c3St, List.mem_singleton] at hp
      subst hp
      simp [c3wRep] at hv
      subst hv
      norm_num [c3Order])
    (by
      intro q hq
      simp only [c3St, List.mem_singleton] at hq
      subst hq
      norm_num [c3Order])
    (by
      intro o ho
      simp [c3St] at ho)
  have hany := claim3_order_state_machine.2.1 (1/5) c3wMgr
    (RB.ReachableAny.step RB.ReachableAny.base
      (RB.StepAny.submit c3wMkt RB.Side.BUY (1/2) (-1) 60 0 0 true 0
        (some { success := true, orderID := some "w1" })))
  have happend := claim3_order_state_machine.1 (RB.Mgr.init (1/5)) c3wMgr
    (RB.StepAny.submit c3wMkt RB.Side.BUY (1/2) (-1) 60 0 0 true 0
      (some { success := true, orderID := some "w1" }))
  have hincl := claim3_order_state_machine.2.2.1 (RB.Mgr.init (1/5)) _
    (RB.Step.submit c3wMkt RB.Side.BUY (1/2) 5 60 0 0 true 0
      (some { success := true, orderID := some "w1" }) (by norm_num))
  have hinit := claim3_order_state_machine.2.2.2.1 (1/5) (RB.Mgr.init (1/5))
    RB.Reachable.base
  refine ⟨?_, ?_, by norm_num, ?_, rfl⟩
  · norm_num [Exec.update_order_status, Exec.updateOne, c3wRep, c3St, c3Order,
      Exec.removeKeyE, Exec.insertKeyE]
  · norm_num [Exec.update_order_status, Exec.updateOne, c3wRep, c3St, c3Order,
      Exec.removeKeyE, Exec.insertKeyE]
  · exact List.all_eq_true.mpr (fun p hp => by simp [hany.1 p hp])

end Polymr
